import Mathlib

/-!
Verification of the VestraForge graph-to-source core against its specification.

The definitions below are a shallow embedding of the TypeScript core:
  * `src/private/src/types/editor.ts`   — the data model (`Port`, `CanvasNode`, `Connection`),
  * `src/private/src/utils/solanaUtils.ts` — `ConnectionValidator` and `ProgramFlowAnalyzer`,
  * `src/src/data/use-auth.tsx` (code generator part) — `generateAnchorCode` and its helpers.

Modelling conventions:
  * JavaScript `Record<string, string[]>` objects are association lists with
    insert-or-replace assignment and first-match lookup.
  * JavaScript `Set<string>` objects are duplicate-free `List String` values with
    cons for `add`, `List.erase` for `delete` and `List.contains` for `has`.
  * The recursive DFS visitors of the source terminate because the `visiting` set
    guards re-entry; the embedding makes this explicit with a fuel parameter and
    the fuel bounds chosen are proved sufficient below (`JsOutcome.nofuel` /
    `Option.none` for fuel exhaustion never occurs at the chosen bounds).
  * A JavaScript runtime `TypeError` (e.g. `undefined.forEach`) is `JsOutcome.crash`.
-/

/-! ## Data model (`src/private/src/types/editor.ts`) -/

/-- A typed attachment point on a node.  Mirrors `Port` from `editor.ts`. -/
structure Port where
  id : String
  name : String
  type : String
deriving DecidableEq

/-- A node of the editor graph.  Mirrors `CanvasNode` from `editor.ts`; the purely
visual fields (`x`, `y`, `width`, `height`, `color`, `icon`, …) are omitted because
no core operation reads them. -/
structure CanvasNode where
  id : String
  type : String
  name : String
  inputs : List Port
  outputs : List Port
deriving DecidableEq

/-- A directed edge between ports of two nodes.  Mirrors `Connection` from `editor.ts`. -/
structure Connection where
  id : String
  sourceNodeId : String
  targetNodeId : String
  sourcePortId : String
  targetPortId : String
deriving DecidableEq

/-! ## ConnectionValidator (`solanaUtils.ts`, lines 454–526) -/

/-- Result of `ConnectionValidator.validateConnection`.  Mirrors `ValidationResult`. -/
structure ValidationResult where
  isValid : Bool
  error : Option String
deriving DecidableEq

/-- The fixed directed type-conversion table of `ConnectionValidator.areTypesCompatible`
(`compatibilityMap` in the source). -/
def compatibilityMap : List (String × List String) :=
  [("number", ["string", "boolean"]),
   ("string", ["number"]),
   ("data", ["any"]),
   ("control", ["event"]),
   ("event", ["control"])]

/-- `ConnectionValidator.areTypesCompatible` (solanaUtils.ts lines 508–525).
`compatibilityMap[sourceType]?.includes(targetType) || false` is embedded as an
association-list lookup followed by a membership test. -/
def areTypesCompatible (sourceType targetType : String) : Bool :=
  if sourceType == "any" || targetType == "any" then true
  else if sourceType == targetType then true
  else
    match compatibilityMap.find? (fun p => p.1 == sourceType) with
    | some p => p.2.contains targetType
    | none => false

/-- `ConnectionValidator.validateConnection` (solanaUtils.ts lines 467–506):
self-connection, type compatibility, exact duplicate, then fan-in, in that order. -/
def validateConnection (sourceNode : CanvasNode) (sourcePort : Port)
    (targetNode : CanvasNode) (targetPort : Port)
    (existingConnections : List Connection) : ValidationResult :=
  if sourceNode.id == targetNode.id then
    ⟨false, some "Cannot connect node to itself"⟩
  else if !(areTypesCompatible sourcePort.type targetPort.type) then
    ⟨false, some ("Incompatible types: " ++ sourcePort.type ++ " -> " ++ targetPort.type)⟩
  else
    match existingConnections.find? (fun conn =>
        conn.sourceNodeId == sourceNode.id && conn.targetNodeId == targetNode.id &&
        conn.sourcePortId == sourcePort.id && conn.targetPortId == targetPort.id) with
    | some _ => ⟨false, some "Connection already exists"⟩
    | none =>
      match existingConnections.find? (fun conn =>
          conn.targetNodeId == targetNode.id && conn.targetPortId == targetPort.id) with
      | some _ => ⟨false, some "Port already has an input connection"⟩
      | none => ⟨true, none⟩

/-! ## Association-list model of `Record<string, string[]>` -/

/-- First-match lookup, the reading `record[key]` of a plain JavaScript object
(restricted to own keys, as the source's `Record<string, string[]>` typing intends). -/
def recLookup (d : List (String × List String)) (k : String) : Option (List String) :=
  (d.find? (fun p => p.1 == k)).map (·.2)

/-- Insert-or-replace assignment, the writing `record[key] = value` of a plain
JavaScript object. -/
def recInsert : List (String × List String) → String → List String → List (String × List String)
  | [], k, v => [(k, v)]
  | p :: rest, k, v => if p.1 == k then (k, v) :: rest else p :: recInsert rest k v

/-! ## ProgramFlowAnalyzer (`solanaUtils.ts`, lines 528–625) -/

/-- Outcome of running a piece of JavaScript that may throw a runtime `TypeError`
(`crash`) — the embedding additionally distinguishes exhaustion of the modelling
fuel (`nofuel`), which is proved unreachable at the fuel bounds used below. -/
inductive JsOutcome (α : Type) where
  | ok (a : α)
  | crash
  | nofuel
deriving DecidableEq

/-- Sequencing of possibly-throwing JavaScript steps. -/
def jsBind {α β : Type} : JsOutcome α → (α → JsOutcome β) → JsOutcome β
  | .ok a, f => f a
  | .crash, _ => .crash
  | .nofuel, _ => .nofuel

/-- Mutable state of `ProgramFlowAnalyzer.topologicalSort`'s `visit` closure:
the `visiting` and `visited` sets and the `result` array. -/
structure TopoState where
  visiting : List String
  visited : List String
  result : List String
deriving DecidableEq

/-- The recursive `visit` closure of `ProgramFlowAnalyzer.topologicalSort`
(solanaUtils.ts lines 566–577).  `dependencies[nodeId]` is `recLookup deps nodeId`;
when the key is absent the JavaScript original evaluates `undefined.forEach` and
throws, which the embedding models as `.crash`.  The inner `forEach` over the
dependency list is the fold. -/
def topoVisit (deps : List (String × List String)) :
    Nat → TopoState → String → JsOutcome TopoState
  | 0, _, _ => .nofuel
  | fuel + 1, s, nodeId =>
    if s.visiting.contains nodeId then .ok s
    else if s.visited.contains nodeId then .ok s
    else
      match recLookup deps nodeId with
      | none => .crash
      | some l =>
        match l.foldl (fun acc dep => jsBind acc (fun st => topoVisit deps fuel st dep))
            (JsOutcome.ok { s with visiting := nodeId :: s.visiting }) with
        | .ok s' =>
          .ok { visiting := s'.visiting.erase nodeId,
                visited := nodeId :: s'.visited,
                result := s'.result ++ [nodeId] }
        | .crash => .crash
        | .nofuel => .nofuel

/-- The `forEach` of `topoVisit` over a list of node ids (also the top-level
`nodeIds.forEach(nodeId => visit(nodeId))` of `topologicalSort`). -/
def topoVisitList (deps : List (String × List String)) (fuel : Nat)
    (s : TopoState) (l : List String) : JsOutcome TopoState :=
  l.foldl (fun acc dep => jsBind acc (fun st => topoVisit deps fuel st dep)) (.ok s)

/-- `ProgramFlowAnalyzer.topologicalSort` (solanaUtils.ts lines 561–582).
The fuel `nodeIds.dedup.length + 1` bounds the depth of the `visit` recursion; it
is proved sufficient below (`topologicalSort` never evaluates to `.nofuel` when the
dependency record's keys come from `nodeIds`). -/
def topologicalSort (nodeIds : List String)
    (dependencies : List (String × List String)) : JsOutcome (List String) :=
  match topoVisitList dependencies (nodeIds.dedup.length + 1) ⟨[], [], []⟩ nodeIds with
  | .ok s => .ok s.result
  | .crash => .crash
  | .nofuel => .nofuel

/-- Mutable state of `ProgramFlowAnalyzer.detectCycles`'s `visit` closure. -/
structure CycState where
  visiting : List String
  visited : List String
  cycles : List (List String)
deriving DecidableEq

/-- The recursive `visit` closure of `ProgramFlowAnalyzer.detectCycles`
(solanaUtils.ts lines 589–606).  Each recursive call receives a copy of the
current path extended with the current node (`[...path]` after `path.push(nodeId)`).
When a node on the `visiting` set is re-entered, the suffix of `path` from that
node's first occurrence is recorded as a cycle (`path.indexOf` cannot miss there
because `visiting` is always a subset of `path`, so the JavaScript `slice(-1)`
corner is unreachable). -/
def cycVisit (deps : List (String × List String)) :
    Nat → CycState → String → List String → JsOutcome CycState
  | 0, _, _, _ => .nofuel
  | fuel + 1, s, nodeId, path =>
    if s.visiting.contains nodeId then
      .ok { s with cycles := s.cycles ++ [path.drop (path.indexOf nodeId)] }
    else if s.visited.contains nodeId then .ok s
    else
      match recLookup deps nodeId with
      | none => .crash
      | some l =>
        match l.foldl (fun acc dep =>
            jsBind acc (fun st => cycVisit deps fuel st dep (path ++ [nodeId])))
            (JsOutcome.ok { s with visiting := nodeId :: s.visiting }) with
        | .ok s' =>
          .ok { visiting := s'.visiting.erase nodeId,
                visited := nodeId :: s'.visited,
                cycles := s'.cycles }
        | .crash => .crash
        | .nofuel => .nofuel

/-- `ProgramFlowAnalyzer.detectCycles` (solanaUtils.ts lines 584–611). -/
def detectCycles (nodeIds : List String)
    (dependencies : List (String × List String)) : JsOutcome (List (List String)) :=
  match nodeIds.foldl (fun acc nodeId =>
      jsBind acc (fun st => cycVisit dependencies (nodeIds.dedup.length + 1) st nodeId []))
      (JsOutcome.ok ⟨[], [], []⟩) with
  | .ok s => .ok s.cycles
  | .crash => .crash
  | .nofuel => .nofuel

/-- `ProgramFlowAnalyzer.findIsolatedNodes` (solanaUtils.ts lines 613–624): nodes
touched by no connection.  The `Set` of connected ids is modelled by a list with
the same membership. -/
def findIsolatedNodes (nodes : List CanvasNode) (connections : List Connection) :
    List String :=
  let connectedNodes :=
    connections.foldl (fun acc conn => acc ++ [conn.sourceNodeId, conn.targetNodeId]) []
  (nodes.filter (fun node => !(connectedNodes.contains node.id))).map (·.id)

/-- Result record of `ProgramFlowAnalyzer.analyzeFlow`.  Mirrors `FlowAnalysis`. -/
structure FlowAnalysis where
  executionOrder : List String
  dependencies : List (String × List String)
  cycles : List (List String)
  isolatedNodes : List String
deriving DecidableEq

/-- The dependency-record construction of `analyzeFlow` (solanaUtils.ts lines
530–542): a key (initially `[]`) per node id, then for each connection whose
target id is a key, the source id is appended to that key's list (the JavaScript
guard `if (dependencies[connection.targetNodeId])` tests key presence, since every
stored value is an array and arrays are truthy). -/
def buildDependencies (nodes : List CanvasNode) (connections : List Connection) :
    List (String × List String) :=
  let base := nodes.foldl (fun d node => recInsert d node.id []) []
  connections.foldl (fun d connection =>
    match recLookup d connection.targetNodeId with
    | some l => recInsert d connection.targetNodeId (l ++ [connection.sourceNodeId])
    | none => d) base

/-- `ProgramFlowAnalyzer.analyzeFlow` (solanaUtils.ts lines 529–559).  A runtime
exception in `topologicalSort` or `detectCycles` propagates out of the call. -/
def analyzeFlow (nodes : List CanvasNode) (connections : List Connection) :
    JsOutcome FlowAnalysis :=
  let dependencies := buildDependencies nodes connections
  let nodeIds := nodes.map (·.id)
  match topologicalSort nodeIds dependencies with
  | .ok executionOrder =>
    match detectCycles nodeIds dependencies with
    | .ok cycles =>
      .ok ⟨executionOrder, dependencies, cycles, findIsolatedNodes nodes connections⟩
    | .crash => .crash
    | .nofuel => .nofuel
  | .crash => .crash
  | .nofuel => .nofuel

/-! ## Code generator (`src/src/data/use-auth.tsx`, code-generation part) -/

/-- JavaScript `String.prototype.toLowerCase` (ASCII-relevant part), character by
character over the underlying list. -/
def jsToLowerCase (s : String) : String := ⟨s.data.map Char.toLower⟩

/-- `programName.charAt(0).toUpperCase() + programName.slice(1)`. -/
def jsCapitalizeFirst (s : String) : String :=
  match s.data with
  | [] => ""
  | c :: rest => ⟨Char.toUpper c :: rest⟩

/-- State machine for `replace(/\s+/g, '_')`: each maximal whitespace run becomes
one underscore.  The flag records whether the previous character was whitespace. -/
def collapseWsAux : Bool → List Char → List Char
  | _, [] => []
  | inRun, c :: rest =>
    if c.isWhitespace then
      if inRun then collapseWsAux true rest
      else '_' :: collapseWsAux true rest
    else c :: collapseWsAux false rest

/-- `node.name.toLowerCase().replace(/\s+/g, '_')` — the module/function name of a
behavioral node. -/
def functionNameOf (name : String) : String :=
  ⟨collapseWsAux false (jsToLowerCase name).data⟩

/-- `node.name.replace(/\s+/g, '')` — the struct name of a node. -/
def structNameOf (name : String) : String :=
  ⟨name.data.filter (fun c => !c.isWhitespace)⟩

/-- `nodes.find(n => n.id === nodeId)`. -/
def lookupNode (nodes : List CanvasNode) (nodeId : String) : Option CanvasNode :=
  nodes.find? (fun n => n.id == nodeId)

/-- Mirrors `DataFlowConnection` (use-auth.tsx); the source field names `from` / `to`
are Lean keywords and are embedded as `fromName` / `toName`. -/
structure DataFlowConnection where
  fromName : String
  toName : String
  dataType : String
  required : Bool
deriving DecidableEq

/-- Mirrors `ProgramFlow` (use-auth.tsx). -/
structure ProgramFlow where
  entryPoints : List String
  executionOrder : List String
  dataFlow : List DataFlowConnection
deriving DecidableEq

/-- Mirrors `GeneratedCode` (use-auth.tsx). -/
structure GeneratedCode where
  lib : String
  instructions : List String
  tests : String
  cargoToml : String
  anchorToml : String
  programFlow : ProgramFlow
deriving DecidableEq

/-- Mutable state of `analyzeProgramFlow`'s `visit` closure (use-auth.tsx lines
475–496): the `visiting` and `visited` sets and the `executionOrder` array. -/
structure FlowBState where
  visiting : List String
  visited : List String
  executionOrder : List String
deriving DecidableEq

/-- The recursive `visit` closure of `analyzeProgramFlow` (use-auth.tsx lines
478–496).  Unlike `ProgramFlowAnalyzer.topologicalSort`, a node id that does not
resolve is tolerated (`nodes.find` returns `undefined` and the guard skips the
body), and the whole dependency recursion and the push are skipped for
account-typed nodes. -/
def flowVisit (nodes : List CanvasNode) (connections : List Connection) :
    Nat → FlowBState → String → Option FlowBState
  | 0, _, _ => none
  | fuel + 1, s, nodeId =>
    if s.visiting.contains nodeId then some s
    else if s.visited.contains nodeId then some s
    else
      let s₀ : FlowBState := { s with visiting := nodeId :: s.visiting }
      match lookupNode nodes nodeId with
      | some node =>
        if node.type != "account" then
          match (connections.filter (fun conn => conn.targetNodeId == nodeId)).foldl
              (fun acc conn =>
                Option.bind acc (fun st => flowVisit nodes connections fuel st conn.sourceNodeId))
              (some s₀) with
          | some s₁ =>
            some { visiting := s₁.visiting.erase nodeId,
                   visited := nodeId :: s₁.visited,
                   executionOrder := s₁.executionOrder ++ [node.name] }
          | none => none
        else
          some { visiting := s₀.visiting.erase nodeId,
                 visited := nodeId :: s₀.visited,
                 executionOrder := s₀.executionOrder }
      | none =>
        some { visiting := s₀.visiting.erase nodeId,
               visited := nodeId :: s₀.visited,
               executionOrder := s₀.executionOrder }

/-- `analyzeProgramFlow` (use-auth.tsx lines 461–521).  `none` would mean fuel
exhaustion of the DFS; the bound `(nodes.map id).dedup.length + 1` is proved
sufficient below. -/
def analyzeProgramFlow (nodes : List CanvasNode) (connections : List Connection) :
    Option ProgramFlow :=
  let entryPoints := (nodes.filter (fun node =>
      !(connections.any (fun conn => conn.targetNodeId == node.id)) &&
      node.type != "account")).map (·.name)
  match nodes.foldl (fun acc node =>
      Option.bind acc (fun st =>
        flowVisit nodes connections ((nodes.map (·.id)).dedup.length + 1) st node.id))
      (some ⟨[], [], []⟩) with
  | some s =>
    let dataFlow := connections.filterMap (fun conn =>
      match lookupNode nodes conn.sourceNodeId, lookupNode nodes conn.targetNodeId with
      | some sourceNode, some targetNode =>
        match sourceNode.outputs.find? (fun p => p.id == conn.sourcePortId),
              targetNode.inputs.find? (fun p => p.id == conn.targetPortId) with
        | some sourcePort, some _ =>
          some ⟨sourceNode.name, targetNode.name, sourcePort.type, true⟩
        | _, _ => none
      | _, _ => none)
    some ⟨entryPoints, s.executionOrder, dataFlow⟩
  | none => none

/-- `generateFlowValidation` (use-auth.tsx lines 592–601); ignores both arguments
just as the source does. -/
def generateFlowValidation (_instructionNodes : List CanvasNode)
    (_connections : List Connection) : String :=
  "\n    pub fn validate_program_flow(instruction_sequence: &[String]) -> Result<()> \x7b\n" ++
  "        // Validate execution order based on connections\n" ++
  "        for (i, instruction) in instruction_sequence.iter().enumerate() \x7b\n" ++
  "            msg!(\"Validating instruction \x7b\x7d: \x7b\x7d\", i, instruction);\n" ++
  "        \x7d\n" ++
  "        Ok(())\n" ++
  "    \x7d"

/-- `generateLibRs` (use-auth.tsx lines 523–590). -/
def generateLibRs (programName : String) (instructionNodes accountNodes : List CanvasNode)
    (connections : List Connection) : String :=
  let instructionImports := String.intercalate "\n" (instructionNodes.map (fun node =>
    "pub mod " ++ functionNameOf node.name ++ ";"))
  let instructionHandlers := String.intercalate "\n" (instructionNodes.map (fun node =>
    "    pub use " ++ functionNameOf node.name ++ "::*;"))
  let accountStructs := String.intercalate "\n" (accountNodes.map (fun node =>
    let structName := structNameOf node.name
    let connectedInstructions := (connections.filter (fun conn =>
      conn.sourceNodeId == node.id || conn.targetNodeId == node.id)).length
    "\n" ++
    "#[account]\n" ++
    "pub struct " ++ structName ++ " \x7b\n" ++
    "    pub authority: Pubkey,\n" ++
    "    pub data: u64,\n" ++
    "    pub bump: u8,\n" ++
    "    pub connected_instructions: u8, // " ++ toString connectedInstructions ++ " connections\n" ++
    "\x7d\n" ++
    "\n" ++
    "impl " ++ structName ++ " \x7b\n" ++
    "    pub const LEN: usize = 8 + 32 + 8 + 1 + 1;\n" ++
    "\x7d"))
  let flowValidation := generateFlowValidation instructionNodes connections
  "use anchor_lang::prelude::*;\n" ++
  "\n" ++
  "declare_id!(\"Fg6PaFpoGXkYsidMpWTK6W2BeZ7FEfcYkg476zPFsLnS\");\n" ++
  "\n" ++
  instructionImports ++ "\n" ++
  "\n" ++
  "#[program]\n" ++
  "pub mod " ++ programName ++ " \x7b\n" ++
  "    use super::*;\n" ++
  instructionHandlers ++ "\n" ++
  "    \n" ++
  "    " ++ flowValidation ++ "\n" ++
  "\x7d\n" ++
  "\n" ++
  accountStructs ++ "\n" ++
  "\n" ++
  "#[derive(Accounts)]\n" ++
  "pub struct Initialize \x7b\x7d\n" ++
  "\n" ++
  "#[error_code]\n" ++
  "pub enum ErrorCode \x7b\n" ++
  "    #[msg(\"Invalid program flow\")]\n" ++
  "    InvalidProgramFlow,\n" ++
  "    #[msg(\"Missing required connection\")]\n" ++
  "    MissingConnection,\n" ++
  "    #[msg(\"Unauthorized access\")]\n" ++
  "    Unauthorized,\n" ++
  "\x7d\n"

/-- `generateInstructionLogic` (use-auth.tsx lines 668–701): a canned body per
node category with a default fallback. -/
def generateInstructionLogic (node : CanvasNode) (_incomingConnections : List Connection)
    (_outgoingConnections : List Connection) (_allNodes : List CanvasNode) : String :=
  let nodeType := jsToLowerCase node.type
  if nodeType == "token" then
    "\n    // Token operation logic\n" ++
    "    require!(ctx.accounts.authority.key() != Pubkey::default(), ErrorCode::Unauthorized);\n" ++
    "    msg!(\"Processing token operation\");"
  else if nodeType == "nft" then
    "\n    // NFT operation logic\n" ++
    "    require!(ctx.accounts.authority.key() != Pubkey::default(), ErrorCode::Unauthorized);\n" ++
    "    msg!(\"Processing NFT operation\");"
  else if nodeType == "defi" then
    "\n    // DeFi operation logic\n" ++
    "    require!(ctx.accounts.authority.key() != Pubkey::default(), ErrorCode::Unauthorized);\n" ++
    "    msg!(\"Processing DeFi operation\");"
  else
    "\n    // Custom instruction logic\n" ++
    "    require!(ctx.accounts.authority.key() != Pubkey::default(), ErrorCode::Unauthorized);\n" ++
    "    msg!(\"Processing custom operation\");"

/-- `generateInstruction` (use-auth.tsx lines 603–666).  The source filter
`.filter(n => n?.type !== 'account')` keeps unresolved (`undefined`) lookup
results, and the subsequent `.map(n => n!.name)` then dereferences `undefined`
and throws a TypeError: the embedding returns `none` in exactly that case. -/
def generateInstruction (node : CanvasNode) (connections : List Connection)
    (allNodes : List CanvasNode) : Option String :=
  let functionName := functionNameOf node.name
  let structName := structNameOf node.name
  let incomingConnections := connections.filter (fun conn => conn.targetNodeId == node.id)
  let outgoingConnections := connections.filter (fun conn => conn.sourceNodeId == node.id)
  let resolvedSources := incomingConnections.map (fun conn => lookupNode allNodes conn.sourceNodeId)
  let connectedAccounts := resolvedSources.filterMap (fun o =>
    match o with
    | some n => if n.type == "account" then some (structNameOf n.name) else none
    | none => none)
  let keptInstructionSources := resolvedSources.filter (fun o =>
    match o with
    | some n => !(n.type == "account")
    | none => true)
  if keptInstructionSources.any (·.isNone) then none
  else
    let connectedInstructions := keptInstructionSources.filterMap (fun o => o.map (·.name))
    let accountFields :=
      if connectedAccounts.length > 0 then
        String.join (connectedAccounts.map (fun accountName =>
          "\n    #[account(mut, constraint = " ++ jsToLowerCase accountName ++
          ".authority == authority.key())]\n" ++
          "    pub " ++ jsToLowerCase accountName ++ ": Account<\x27info, " ++
          accountName ++ ">,")) ++
        "\n    #[account(mut)]\n" ++
        "    pub authority: Signer<\x27info>,\n" ++
        "    pub system_program: Program<\x27info, System>,"
      else
        "\n    #[account(mut)]\n" ++
        "    pub authority: Signer<\x27info>,\n" ++
        "    pub system_program: Program<\x27info, System>,"
    let instructionLogic :=
      generateInstructionLogic node incomingConnections outgoingConnections allNodes
    let connectionMsg :=
      if connectedInstructions.length > 0 then
        "msg!(\"Connected to instructions: " ++
        String.intercalate ", " connectedInstructions ++ "\");"
      else
        "msg!(\"Entry point instruction\");"
    let accountUpdates := String.join (connectedAccounts.map (fun accountName =>
      "\n    ctx.accounts." ++ jsToLowerCase accountName ++ ".data += 1;\n" ++
      "    msg!(\"Updated " ++ accountName ++ " data\");"))
    some ("use anchor_lang::prelude::*;\n" ++
      "use crate::ErrorCode;\n" ++
      "\n" ++
      "pub fn " ++ functionName ++ "(ctx: Context<" ++ structName ++ ">) -> Result<()> \x7b\n" ++
      "    msg!(\"Executing " ++ node.name ++ "\");\n" ++
      "    \n" ++
      "    // Validate incoming connections\n" ++
      "    " ++ connectionMsg ++ "\n" ++
      "    \n" ++
      "    " ++ instructionLogic ++ "\n" ++
      "    \n" ++
      "    // Update connected accounts\n" ++
      "    " ++ accountUpdates ++ "\n" ++
      "    \n" ++
      "    Ok(())\n" ++
      "\x7d\n" ++
      "\n" ++
      "#[derive(Accounts)]\n" ++
      "pub struct " ++ structName ++ "<\x27info> \x7b" ++ accountFields ++ "\n" ++
      "\x7d\n")

/-- `generateIntegrationTests` (use-auth.tsx lines 765–784).  Note that the emitted
`executionOrder` array holds the behavioral nodes' names in input order
(`instructionNodes.map(n => n.name)`), not the dependency-first order. -/
def generateIntegrationTests (instructionNodes : List CanvasNode)
    (connections : List Connection) : String :=
  if connections.length == 0 then ""
  else
    "\n  describe(\"Integration Tests\", () => \x7b\n" ++
    "    it(\"should execute connected instructions in sequence\", async () => \x7b\n" ++
    "      console.log(\"🔗 Testing instruction connections\");\n" ++
    "      \n" ++
    "      // Execute instructions based on their connections\n" ++
    "      const executionOrder = [" ++
    String.intercalate ", " (instructionNodes.map (fun n => "\"" ++ n.name ++ "\"")) ++
    "];\n" ++
    "      \n" ++
    "      for (const instructionName of executionOrder) \x7b\n" ++
    "        console.log(`Executing: $\x7binstructionName\x7d`);\n" ++
    "        // Add specific execution logic here\n" ++
    "      \x7d\n" ++
    "      \n" ++
    "      console.log(\"✅ All connected instructions executed successfully\");\n" ++
    "    \x7d);\n" ++
    "  \x7d);"

/-- `generateTests` (use-auth.tsx lines 703–763). -/
def generateTests (programName : String) (instructionNodes : List CanvasNode)
    (connections : List Connection) : String :=
  let testCases := String.intercalate "\n" (instructionNodes.map (fun node =>
    let functionName := functionNameOf node.name
    let connectedNodes := (connections.filter (fun conn =>
      conn.targetNodeId == node.id || conn.sourceNodeId == node.id)).length
    "\n  it(\"" ++ node.name ++ " (" ++ toString connectedNodes ++
    " connections)\", async () => \x7b\n" ++
    "    // Test " ++ node.name ++ " instruction with connection validation\n" ++
    "    try \x7b\n" ++
    "      const tx = await program.methods." ++ functionName ++ "()\n" ++
    "        .accounts(\x7b\n" ++
    "          authority: provider.wallet.publicKey,\n" ++
    "          systemProgram: anchor.web3.SystemProgram.programId,\n" ++
    "        \x7d)\n" ++
    "        .rpc();\n" ++
    "      \n" ++
    "      console.log(\"✅ " ++ node.name ++ " transaction signature:\", tx);\n" ++
    "      \n" ++
    "      // Validate program flow\n" ++
    "      const flowValidation = await program.methods.validateProgramFlow([\"" ++
    node.name ++ "\"])\n" ++
    "        .accounts(\x7b\n" ++
    "          authority: provider.wallet.publicKey,\n" ++
    "        \x7d)\n" ++
    "        .rpc();\n" ++
    "      \n" ++
    "      console.log(\"✅ Flow validation signature:\", flowValidation);\n" ++
    "    \x7d catch (error) \x7b\n" ++
    "      console.error(\"❌ " ++ node.name ++ " test failed:\", error);\n" ++
    "      throw error;\n" ++
    "    \x7d\n" ++
    "  \x7d);"))
  let integrationTests := generateIntegrationTests instructionNodes connections
  let capName := jsCapitalizeFirst programName
  "import * as anchor from \"@coral-xyz/anchor\";\n" ++
  "import \x7b Program \x7d from \"@coral-xyz/anchor\";\n" ++
  "import \x7b " ++ capName ++ " \x7d from \"../target/types/" ++ programName ++ "\";\n" ++
  "import \x7b expect \x7d from \"chai\";\n" ++
  "\n" ++
  "describe(\"" ++ programName ++ "\", () => \x7b\n" ++
  "  anchor.setProvider(anchor.AnchorProvider.env());\n" ++
  "  const program = anchor.workspace." ++ capName ++ " as Program<" ++ capName ++ ">;\n" ++
  "\n" ++
  "  before(async () => \x7b\n" ++
  "    console.log(\"🚀 Starting " ++ programName ++ " tests\");\n" ++
  "    console.log(\"Program ID:\", program.programId.toString());\n" ++
  "  \x7d);\n" ++
  "\n" ++
  testCases ++ "\n" ++
  "\n" ++
  "  " ++ integrationTests ++ "\n" ++
  "\x7d);\n"

/-- `generateCargoToml` (use-auth.tsx lines 786–807). -/
def generateCargoToml (programName : String) : String :=
  "[package]\n" ++
  "name = \"" ++ programName ++ "\"\n" ++
  "version = \"0.1.0\"\n" ++
  "description = \"Created with AnchorFlow\"\n" ++
  "edition = \"2021\"\n" ++
  "\n" ++
  "[lib]\n" ++
  "crate-type = [\"cdylib\", \"lib\"]\n" ++
  "name = \"" ++ programName ++ "\"\n" ++
  "\n" ++
  "[features]\n" ++
  "no-entrypoint = []\n" ++
  "no-idl = []\n" ++
  "no-log-ix-name = []\n" ++
  "cpi = [\"no-entrypoint\"]\n" ++
  "default = []\n" ++
  "\n" ++
  "[dependencies]\n" ++
  "anchor-lang = \"0.29.0\"\n"

/-- `generateAnchorToml` (use-auth.tsx lines 809–827). -/
def generateAnchorToml (programName : String) : String :=
  "[features]\n" ++
  "seeds = false\n" ++
  "skip-lint = false\n" ++
  "\n" ++
  "[programs.localnet]\n" ++
  programName ++ " = \"Fg6PaFpoGXkYsidMpWTK6W2BeZ7FEfcYkg476zPFsLnS\"\n" ++
  "\n" ++
  "[registry]\n" ++
  "url = \"https://api.apr.dev\"\n" ++
  "\n" ++
  "[provider]\n" ++
  "cluster = \"Localnet\"\n" ++
  "wallet = \"~/.config/solana/id.json\"\n" ++
  "\n" ++
  "[scripts]\n" ++
  "test = \"yarn run ts-mocha -p ./tsconfig.json -t 1000000 tests/**/*.ts\"\n"

/-- `generateAnchorCode` (use-auth.tsx lines 426–459).  `none` arises exactly when
one of the per-node `generateInstruction` calls throws (unresolvable non-account
incoming source), or — never at the proved fuel bound — when `analyzeProgramFlow`
runs out of modelling fuel. -/
def generateAnchorCode (nodes : List CanvasNode) (connections : List Connection) :
    Option GeneratedCode :=
  let programName := "my_program"
  let instructionNodes := nodes.filter (fun node => !(node.type == "account"))
  let accountNodes := nodes.filter (fun node => node.type == "account")
  match analyzeProgramFlow nodes connections with
  | none => none
  | some programFlow =>
    let lib := generateLibRs programName instructionNodes accountNodes connections
    match instructionNodes.mapM (fun node => generateInstruction node connections nodes) with
    | none => none
    | some instructions =>
      some ⟨lib, instructions,
            generateTests programName instructionNodes connections,
            generateCargoToml programName,
            generateAnchorToml programName,
            programFlow⟩

/-! ## Vocabulary for the claims -/

/-- `pat` occurs as a contiguous substring of `s`. -/
def Occurs (pat s : String) : Prop :=
  ∃ pre post : String, s = pre ++ pat ++ post

/-- Substring occurrence is infixhood of the underlying character lists. -/
theorem occurs_iff_infix (pat s : String) : Occurs pat s ↔ pat.data <:+: s.data := by
  constructor
  · rintro ⟨pre, post, rfl⟩
    exact ⟨pre.data, post.data, by simp [String.data_append]⟩
  · rintro ⟨u, v, h⟩
    refine ⟨⟨u⟩, ⟨v⟩, ?_⟩
    apply String.ext
    simp [String.data_append]
    rw [← List.append_assoc, h]

/-- The edge relation of the connection graph: one connection leads from `a` to `b`. -/
def connStep (connections : List Connection) (a b : String) : Prop :=
  ∃ c ∈ connections, c.sourceNodeId = a ∧ c.targetNodeId = b

/-- Acyclicity of a graph snapshot: no node reaches itself through a non-empty
chain of connections. -/
def AcyclicConnections (connections : List Connection) : Prop :=
  ∀ n, ¬ Relation.TransGen (connStep connections) n n

/-- A graph whose connections admit a strictly increasing rank is acyclic. -/
theorem acyclicConnections_of_rank (connections : List Connection) (rank : String → Nat)
    (h : ∀ c ∈ connections, rank c.sourceNodeId < rank c.targetNodeId) :
    AcyclicConnections connections := by
  intro n hn
  have mono : ∀ a b, Relation.TransGen (connStep connections) a b → rank a < rank b := by
    intro a b hab
    induction hab with
    | single h1 =>
      obtain ⟨c, hc, h2, h3⟩ := h1
      rw [← h2, ← h3]
      exact h c hc
    | tail _ h1 ih =>
      obtain ⟨c, hc, h2, h3⟩ := h1
      rw [← h3]
      exact ih.trans (h2 ▸ h c hc)
  exact absurd (mono n n hn) (lt_irrefl _)

/-- Restriction of an id sequence to behavioral (non-account) nodes, each id mapped
to its node's name — the reading of the spec's "restricting `analyze`'s order to
behavioral nodes and mapping node ids to node names". -/
def restrictBehavioral (nodes : List CanvasNode) (order : List String) : List String :=
  order.filterMap (fun i =>
    match lookupNode nodes i with
    | some node => if node.type == "account" then none else some node.name
    | none => none)

/-- The execution order carried by an `analyzeFlow` outcome, when the call returned. -/
def flowExecutionOrder : JsOutcome FlowAnalysis → Option (List String)
  | .ok fa => some fa.executionOrder
  | .crash => none
  | .nofuel => none

/-- The test-suite blob carried by a `generateAnchorCode` result, when the call
returned. -/
def generatedTests : Option GeneratedCode → Option String
  | some g => some g.tests
  | none => none

/-! ## Concrete fixtures used by counterexamples and witnesses -/

/-- Behavioral node `C` depending (through the account node `X`) on behavioral
node `B`; input order deliberately lists `C` first. -/
def mixedChainNodes : List CanvasNode :=
  [⟨"C", "instruction", "C", [], []⟩,
   ⟨"X", "account", "X", [], []⟩,
   ⟨"B", "instruction", "B", [], []⟩]

/-- The acyclic chain `B → X → C` over `mixedChainNodes`. -/
def mixedChainConnections : List Connection :=
  [⟨"c1", "B", "X", "p", "q"⟩, ⟨"c2", "X", "C", "p", "q"⟩]

/-- Two behavioral nodes listed against their dependency order (`B2` before `B1`). -/
def twoNodeChainNodes : List CanvasNode :=
  [⟨"b2", "instruction", "B2", [], []⟩, ⟨"b1", "instruction", "B1", [], []⟩]

/-- The single connection `B1 → B2` over `twoNodeChainNodes`. -/
def twoNodeChainConnections : List Connection :=
  [⟨"c1", "b1", "b2", "p", "q"⟩]

/-! ## Claim C1 -/

/-- Claim C1 (refuted; the spec is the intent, the code a slip): `analyzeFlow` is
claimed to return normally on every input, including a connection whose
`sourceNodeId` does not occur in `nodes` while its `targetNodeId` does.  On exactly
such an input — node `B` plus connection `A → B` — the dependency record maps `B`
to `["A"]`, `topologicalSort`'s `visit("A")` evaluates `dependencies["A"].forEach`
with `dependencies["A"]` undefined, and the call throws a `TypeError`. -/
theorem analyzeFlow_crashes_on_unresolved_source :
    analyzeFlow [⟨"B", "instruction", "B", [], []⟩] [⟨"c1", "A", "B", "p", "q"⟩] =
      JsOutcome.crash := by
  decide

/-! ## Claim C8 -/

/-- Claim C8 (confirmed): a proposal whose source and target node ids coincide is
rejected with the self-connection reason, whatever the ports and the existing
connections — in particular ahead of type compatibility, since nothing about the
port types is consulted. -/
theorem validateConnection_rejects_self_connection
    (sourceNode : CanvasNode) (sourcePort : Port) (targetNode : CanvasNode)
    (targetPort : Port) (existingConnections : List Connection)
    (h : sourceNode.id = targetNode.id) :
    validateConnection sourceNode sourcePort targetNode targetPort existingConnections =
      ⟨false, some "Cannot connect node to itself"⟩ := by
  unfold validateConnection
  rw [if_pos (by simp [h])]

/-- Witness for C8 at a concrete input whose port types are incompatible
(`string → boolean`) and whose connection list is non-empty: the self-connection
reason still wins. -/
theorem validateConnection_rejects_self_connection_witness :
    validateConnection ⟨"n1", "instruction", "N1", [], [⟨"p1", "out", "string"⟩]⟩
      ⟨"p1", "out", "string"⟩ ⟨"n1", "instruction", "N1", [⟨"q1", "in", "boolean"⟩], []⟩
      ⟨"q1", "in", "boolean"⟩ [⟨"c0", "n8", "n9", "pz", "qz"⟩] =
      ⟨false, some "Cannot connect node to itself"⟩ :=
  validateConnection_rejects_self_connection _ _ _ _ _ rfl

/-! ## Claim C9 -/

/-- Claim C9 (confirmed): `generateAnchorCode` is deterministic — two calls on the
same graph snapshot yield equal results (all text blobs and the `ProgramFlow`).
The embedded generator is a pure function: the verification content is that the
source of `generateAnchorCode` and every helper it calls contains no randomness,
time, or I/O, so its faithful embedding is a function of the snapshot alone. -/
theorem generateAnchorCode_deterministic (nodes : List CanvasNode)
    (connections : List Connection) :
    generateAnchorCode nodes connections = generateAnchorCode nodes connections := rfl

/-! ## Claim C4 -/

/-- Claim C4 (refuted): the validator is claimed to reject a proposal whose
`sourcePort` is not among `sourceNode.outputs`.  Concretely, a proposal whose
source port (`id "zz"`) is foreign to the source node (whose only output is
`"p1"`) — and whose target port is equally foreign to the target node — is
accepted: `validateConnection` never inspects `inputs`/`outputs`. -/
theorem validateConnection_accepts_foreign_port :
    (⟨"zz", "foreign", "number"⟩ : Port) ∉
      (⟨"n1", "instruction", "N1", [], [⟨"p1", "out", "number"⟩]⟩ : CanvasNode).outputs ∧
    validateConnection ⟨"n1", "instruction", "N1", [], [⟨"p1", "out", "number"⟩]⟩
      ⟨"zz", "foreign", "number"⟩ ⟨"n2", "instruction", "N2", [], []⟩
      ⟨"q1", "in", "number"⟩ [] = ⟨true, none⟩ := by
  decide

/-- Claim C4 as amended: `validateConnection` enforces no endpoint ownership at
all — its verdict is a function of the two node ids, the two ports' ids and types,
and the existing connections only, so replacing either port by any port with the
same id and type (owned by the node or not) cannot change the result. -/
theorem validateConnection_ignores_port_ownership
    (sourceNode sourceNode' : CanvasNode) (sourcePort sourcePort' : Port)
    (targetNode targetNode' : CanvasNode) (targetPort targetPort' : Port)
    (existingConnections : List Connection)
    (hsn : sourceNode.id = sourceNode'.id) (htn : targetNode.id = targetNode'.id)
    (hspi : sourcePort.id = sourcePort'.id) (hspt : sourcePort.type = sourcePort'.type)
    (htpi : targetPort.id = targetPort'.id) (htpt : targetPort.type = targetPort'.type) :
    validateConnection sourceNode sourcePort targetNode targetPort existingConnections =
      validateConnection sourceNode' sourcePort' targetNode' targetPort'
        existingConnections := by
  simp only [validateConnection, hsn, htn, hspi, hspt, htpi, htpt]

/-- Witness for the amended C4: swapping the owned source port of `"n1"` for a
port with the same id and type that the node does not own leaves the verdict
unchanged. -/
theorem validateConnection_ignores_port_ownership_witness :
    validateConnection ⟨"n1", "instruction", "N1", [], [⟨"p1", "out", "number"⟩]⟩
      ⟨"p1", "out", "number"⟩ ⟨"n2", "instruction", "N2", [⟨"q1", "in", "number"⟩], []⟩
      ⟨"q1", "in", "number"⟩ [] =
    validateConnection ⟨"n1", "instruction", "N1", [], [⟨"p1", "out", "number"⟩]⟩
      ⟨"p1", "foreign copy", "number"⟩ ⟨"n2", "instruction", "N2", [⟨"q1", "in", "number"⟩], []⟩
      ⟨"q1", "in", "number"⟩ [] :=
  validateConnection_ignores_port_ownership _ _ _ _ _ _ _ _ _
    rfl rfl rfl rfl rfl rfl

/-! ## Claim C7 -/

/-- Claim C7 (confirmed): whenever a proposal passes the self-connection,
type-compatibility and exact-duplicate rules but some existing connection already
targets the same `(targetNode.id, targetPort.id)` pair, the validator answers
invalid with the fan-in reason — input ports accept at most one connection. -/
theorem validateConnection_rejects_second_input
    (sourceNode : CanvasNode) (sourcePort : Port) (targetNode : CanvasNode)
    (targetPort : Port) (existingConnections : List Connection)
    (hid : sourceNode.id ≠ targetNode.id)
    (hty : areTypesCompatible sourcePort.type targetPort.type = true)
    (hdup : ∀ conn ∈ existingConnections,
      ¬(conn.sourceNodeId = sourceNode.id ∧ conn.targetNodeId = targetNode.id ∧
        conn.sourcePortId = sourcePort.id ∧ conn.targetPortId = targetPort.id))
    (hfan : ∃ conn ∈ existingConnections,
      conn.targetNodeId = targetNode.id ∧ conn.targetPortId = targetPort.id) :
    validateConnection sourceNode sourcePort targetNode targetPort existingConnections =
      ⟨false, some "Port already has an input connection"⟩ := by
  unfold validateConnection
  rw [if_neg (by simp [hid]), if_neg (by simp [hty])]
  have hfind1 : existingConnections.find? (fun conn =>
      conn.sourceNodeId == sourceNode.id && conn.targetNodeId == targetNode.id &&
      conn.sourcePortId == sourcePort.id && conn.targetPortId == targetPort.id) = none := by
    rw [List.find?_eq_none]
    intro conn hc
    have := hdup conn hc
    simp only [Bool.and_eq_true, beq_iff_eq]
    tauto
  have hfind2 : (existingConnections.find? (fun conn =>
      conn.targetNodeId == targetNode.id && conn.targetPortId == targetPort.id)).isSome := by
    rw [List.find?_isSome]
    obtain ⟨conn, hc, h1, h2⟩ := hfan
    exact ⟨conn, hc, by simp [h1, h2]⟩
  rw [hfind1]
  obtain ⟨conn, hconn⟩ := Option.isSome_iff_exists.mp hfind2
  rw [hconn]

/-- Witness for C7: a fresh `n1.p1 → n2.q1` proposal while a stored connection
from another node already occupies `(n2, q1)`. -/
theorem validateConnection_rejects_second_input_witness :
    validateConnection ⟨"n1", "instruction", "N1", [], [⟨"p1", "out", "number"⟩]⟩
      ⟨"p1", "out", "number"⟩ ⟨"n2", "instruction", "N2", [⟨"q1", "in", "number"⟩], []⟩
      ⟨"q1", "in", "number"⟩ [⟨"c0", "n9", "n2", "pz", "q1"⟩] =
      ⟨false, some "Port already has an input connection"⟩ :=
  validateConnection_rejects_second_input _ _ _ _ _
    (by decide) (by decide) (by decide) ⟨⟨"c0", "n9", "n2", "pz", "q1"⟩, by decide, rfl, rfl⟩

/-! ## Claim C5 -/

/-- Claim C5 (confirmed): exact characterization of the compatibility predicate —
true precisely for the `"any"` wildcard on either side, equal types, and the five
directed table entries `number→string`, `number→boolean`, `string→number`,
`data→any`, `control→event`, `event→control`; every other pair of distinct types
is incompatible (in particular `string→boolean` is not compatible). -/
theorem areTypesCompatible_characterization (sourceType targetType : String) :
    areTypesCompatible sourceType targetType = true ↔
      sourceType = "any" ∨ targetType = "any" ∨ sourceType = targetType ∨
      (sourceType = "number" ∧ (targetType = "string" ∨ targetType = "boolean")) ∨
      (sourceType = "string" ∧ targetType = "number") ∨
      (sourceType = "data" ∧ targetType = "any") ∨
      (sourceType = "control" ∧ targetType = "event") ∨
      (sourceType = "event" ∧ targetType = "control") := by
  unfold areTypesCompatible compatibilityMap
  split_ifs with h1 h2
  · simp only [Bool.or_eq_true, beq_iff_eq] at h1
    simp
    tauto
  · simp only [beq_iff_eq] at h2
    simp
    tauto
  · simp only [Bool.or_eq_true, beq_iff_eq, not_or] at h1
    simp only [beq_iff_eq] at h2
    obtain ⟨hsa, hta⟩ := h1
    simp only [List.find?]
    by_cases hn : sourceType = "number"
    · subst hn
      simp_all [List.contains]
    · by_cases hs : sourceType = "string"
      · subst hs
        simp_all [List.contains]
      · by_cases hd : sourceType = "data"
        · subst hd
          simp_all [List.contains]
        · by_cases hc : sourceType = "control"
          · subst hc
            simp_all [List.contains]
          · by_cases he : sourceType = "event"
            · subst he
              simp_all [List.contains]
            · have e1 : ("number" == sourceType) = false :=
                beq_eq_false_iff_ne.mpr (fun h => hn h.symm)
              have e2 : ("string" == sourceType) = false :=
                beq_eq_false_iff_ne.mpr (fun h => hs h.symm)
              have e3 : ("data" == sourceType) = false :=
                beq_eq_false_iff_ne.mpr (fun h => hd h.symm)
              have e4 : ("control" == sourceType) = false :=
                beq_eq_false_iff_ne.mpr (fun h => hc h.symm)
              have e5 : ("event" == sourceType) = false :=
                beq_eq_false_iff_ne.mpr (fun h => he h.symm)
              simp only [e1, e2, e3, e4, e5]
              simp_all

/-! ## Claim C2, counterexample -/

/-- Claim C2 (refuted as stated): on the acyclic snapshot `B → X → C` (account
node `X` in the middle, input order `C, X, B`), `analyzeFlow` orders `[B, X, C]`
— restricted to behavioral nodes and mapped to names: `[B, C]` — while the
lowering pass's `analyzeProgramFlow` never traverses the dependencies of the
account node `X` and outputs `[C, B]`.  The two dependency-first traversals
disagree on this acyclic graph. -/
theorem flow_orders_disagree_on_account_chain :
    AcyclicConnections mixedChainConnections ∧
    (flowExecutionOrder (analyzeFlow mixedChainNodes mixedChainConnections)).map
      (restrictBehavioral mixedChainNodes) = some ["B", "C"] ∧
    (analyzeProgramFlow mixedChainNodes mixedChainConnections).map (·.executionOrder) =
      some ["C", "B"] ∧
    ¬((flowExecutionOrder (analyzeFlow mixedChainNodes mixedChainConnections)).map
        (restrictBehavioral mixedChainNodes) =
      (analyzeProgramFlow mixedChainNodes mixedChainConnections).map (·.executionOrder)) :=
  ⟨acyclicConnections_of_rank _
      (fun s => if s = "B" then 0 else if s = "X" then 1 else 2) (by decide),
   by decide, by decide, by decide⟩

/-! ## Claim C3 -/

/-- An explicitly delimited occurrence. -/
theorem occurs_of_append (a b c : String) : Occurs b (a ++ b ++ c) := ⟨a, c, rfl⟩

/-- Occurrence survives appending on the right. -/
theorem Occurs.appendRight {pat s : String} (h : Occurs pat s) (t : String) :
    Occurs pat (s ++ t) := by
  obtain ⟨p, q, rfl⟩ := h
  exact ⟨p, q ++ t, by simp [String.append_assoc]⟩

/-- Occurrence survives prepending on the left. -/
theorem Occurs.appendLeft {pat s : String} (h : Occurs pat s) (t : String) :
    Occurs pat (t ++ s) := by
  obtain ⟨p, q, rfl⟩ := h
  exact ⟨t ++ p, q, by simp [String.append_assoc]⟩

/-- Every string occurs in itself. -/
theorem occurs_self (pat : String) : Occurs pat pat :=
  ⟨"", "", by simp⟩

/-- The integration-test text that `generateIntegrationTests` emits on a non-empty
connection list, as a function of the iterated instruction-name sequence — the
sequence appears as the emitted `const executionOrder = [...]` array. -/
def integrationTestBlock (names : List String) : String :=
  "\n  describe(\"Integration Tests\", () => \x7b\n" ++
  "    it(\"should execute connected instructions in sequence\", async () => \x7b\n" ++
  "      console.log(\"🔗 Testing instruction connections\");\n" ++
  "      \n" ++
  "      // Execute instructions based on their connections\n" ++
  "      const executionOrder = [" ++
  String.intercalate ", " (names.map (fun n => "\"" ++ n ++ "\"")) ++
  "];\n" ++
  "      \n" ++
  "      for (const instructionName of executionOrder) \x7b\n" ++
  "        console.log(`Executing: $\x7binstructionName\x7d`);\n" ++
  "        // Add specific execution logic here\n" ++
  "      \x7d\n" ++
  "      \n" ++
  "      console.log(\"✅ All connected instructions executed successfully\");\n" ++
  "    \x7d);\n" ++
  "  \x7d);"

/-- On a non-empty connection list the emitted integration test is the fixed
template around the behavioral nodes' names in input order. -/
theorem generateIntegrationTests_eq_block (instructionNodes : List CanvasNode)
    (connections : List Connection) (h : connections ≠ []) :
    generateIntegrationTests instructionNodes connections =
      integrationTestBlock (instructionNodes.map (·.name)) := by
  have hlen : (connections.length == 0) = false := by
    cases connections with
    | nil => exact absurd rfl h
    | cons c rest => rfl
  unfold generateIntegrationTests integrationTestBlock
  rw [hlen, List.map_map]
  rfl

/-- The test-suite blob physically contains the emitted integration-test text. -/
theorem generateTests_contains_integration (programName : String)
    (instructionNodes : List CanvasNode) (connections : List Connection) :
    Occurs (generateIntegrationTests instructionNodes connections)
      (generateTests programName instructionNodes connections) := by
  unfold generateTests
  exact (((occurs_self _).appendLeft _).appendRight _).appendRight _

/-- The test-suite blob of a successful `generateAnchorCode` run is the one
produced by `generateTests` on the behavioral nodes. -/
theorem generateAnchorCode_tests (nodes : List CanvasNode) (connections : List Connection)
    (g : GeneratedCode) (hg : generateAnchorCode nodes connections = some g) :
    g.tests = generateTests "my_program"
      (nodes.filter (fun node => !(node.type == "account"))) connections := by
  unfold generateAnchorCode at hg
  cases hpf : analyzeProgramFlow nodes connections with
  | none =>
    simp only [hpf] at hg
    exact absurd hg (by simp)
  | some pf =>
    simp only [hpf] at hg
    cases hmap : (nodes.filter (fun node => !(node.type == "account"))).mapM
        (fun node => generateInstruction node connections nodes) with
    | none =>
      rw [hmap] at hg
      simp at hg
    | some instrs =>
      rw [hmap] at hg
      simp only [Option.some.injEq] at hg
      subst hg
      rfl

set_option maxRecDepth 20000 in
/-- Claim C3 (refuted as stated): on the snapshot `[B2, B1]` with connection
`B1 → B2`, the dependency-first behavioral order (the lowering pass's own
`executionOrder`) is `["B1", "B2"]`, yet the single integration test the
test-suite blob contains iterates `["B2", "B1"]` — the behavioral nodes in input
order — and is not the dependency-ordered block. -/
theorem tests_blob_not_in_dependency_order :
    twoNodeChainConnections ≠ [] ∧
    (analyzeProgramFlow twoNodeChainNodes twoNodeChainConnections).map (·.executionOrder) =
      some ["B1", "B2"] ∧
    (generatedTests (generateAnchorCode twoNodeChainNodes twoNodeChainConnections)).getD "" =
      generateTests "my_program"
        (twoNodeChainNodes.filter (fun node => !(node.type == "account")))
        twoNodeChainConnections ∧
    Occurs (generateIntegrationTests
        (twoNodeChainNodes.filter (fun node => !(node.type == "account")))
        twoNodeChainConnections)
      (generateTests "my_program"
        (twoNodeChainNodes.filter (fun node => !(node.type == "account")))
        twoNodeChainConnections) ∧
    generateIntegrationTests
        (twoNodeChainNodes.filter (fun node => !(node.type == "account")))
        twoNodeChainConnections =
      integrationTestBlock ["B2", "B1"] ∧
    integrationTestBlock ["B2", "B1"] ≠ integrationTestBlock ["B1", "B2"] := by
  refine ⟨by decide, by decide, ?_, generateTests_contains_integration _ _ _, ?_, ?_⟩
  · have hs : (generateAnchorCode twoNodeChainNodes twoNodeChainConnections).isSome := by
      decide
    have hg := Option.some_get hs
    have ht := generateAnchorCode_tests _ _ _ hg.symm
    rw [← hg]
    simpa [generatedTests] using ht
  · rw [generateIntegrationTests_eq_block _ _ (by decide)]
    rfl
  · decide

/-- Claim C3 as amended: for every snapshot with a non-empty connection list, the
test-suite blob contains the one appended integration test, and the
instruction-name sequence it iterates is the behavioral nodes' names in input
order (`instructionNodes.map(n => n.name)`) — not the dependency-first execution
order. -/
theorem generated_tests_integration_input_order
    (nodes : List CanvasNode) (connections : List Connection) (g : GeneratedCode)
    (hconn : connections ≠ [])
    (hg : generateAnchorCode nodes connections = some g) :
    Occurs (integrationTestBlock
        ((nodes.filter (fun node => !(node.type == "account"))).map (·.name))) g.tests := by
  rw [generateAnchorCode_tests nodes connections g hg,
    ← generateIntegrationTests_eq_block _ _ hconn]
  exact generateTests_contains_integration _ _ _

/-- Witness for the amended C3 at the two-node chain snapshot. -/
theorem generated_tests_integration_input_order_witness :
    Occurs (integrationTestBlock
        ((twoNodeChainNodes.filter (fun node => !(node.type == "account"))).map (·.name)))
      ((generateAnchorCode twoNodeChainNodes twoNodeChainConnections).get (by decide)).tests :=
  generated_tests_integration_input_order _ _ _ (by decide) (Option.some_get _).symm

/-! ## Properties of the association-list record -/

/-- Membership reading of the boolean `contains`. -/
theorem contains_mem {l : List String} {a : String} : l.contains a = true ↔ a ∈ l := by
  simp

/-- Lookup after a cons. -/
theorem recLookup_cons (p : String × List String) (rest : List (String × List String))
    (k : String) :
    recLookup (p :: rest) k = if p.1 == k then some p.2 else recLookup rest k := by
  by_cases h : p.1 == k <;>
    simp [recLookup, List.find?_cons_of_pos, List.find?_cons_of_neg, h]

/-- Lookup after an insert-or-replace assignment. -/
theorem recLookup_recInsert (d : List (String × List String)) (k k' : String)
    (v : List String) :
    recLookup (recInsert d k v) k' = if k' = k then some v else recLookup d k' := by
  induction d with
  | nil =>
    by_cases h : k' = k
    · simp [recInsert, recLookup_cons, recLookup, h, beq_iff_eq]
    · simp only [recInsert, recLookup_cons, if_neg h]
      have : (k == k') = false := by
        simp only [beq_eq_false_iff_ne]
        exact fun hk => h hk.symm
      simp [this, recLookup]
  | cons p rest ih =>
    by_cases h : p.1 == k
    · have h' : p.1 = k := by simpa [beq_iff_eq] using h
      simp only [recInsert, if_pos h]
      rw [recLookup_cons, recLookup_cons]
      by_cases h2 : k' = k
      · simp [h2, beq_iff_eq]
      · have : (k == k') = false := by
          simp only [beq_eq_false_iff_ne]
          exact fun hk => h2 hk.symm
        have hp : (p.1 == k') = false := by
          simp only [beq_eq_false_iff_ne, h']
          exact fun hk => h2 hk.symm
        simp [this, hp, h2]
    · simp only [recInsert, if_neg h]
      rw [recLookup_cons, recLookup_cons]
      by_cases h2 : p.1 == k'
      · have h2' : p.1 = k' := by simpa [beq_iff_eq] using h2
        have : ¬ k' = k := by
          intro hk
          exact absurd (by simp [beq_iff_eq, h2', hk]) h
        simp [h2, this]
      · simp [h2, ih]

/-- Lookup in the per-node initialisation fold of `buildDependencies`. -/
theorem recLookup_base (nodes : List CanvasNode) (d₀ : List (String × List String))
    (i : String) :
    recLookup (nodes.foldl (fun d node => recInsert d node.id []) d₀) i =
      if i ∈ nodes.map (·.id) then some [] else recLookup d₀ i := by
  induction nodes generalizing d₀ with
  | nil => simp
  | cons node rest ih =>
    simp only [List.foldl_cons, ih, List.map_cons, List.mem_cons]
    by_cases h : i ∈ rest.map (·.id)
    · simp [h]
    · rw [if_neg h, recLookup_recInsert]
      by_cases h2 : i = node.id <;> simp [h2, h]

/-- Lookup in the connection fold of `buildDependencies`: each key accumulates the
source ids of the connections targeting it, in connection order; absent keys stay
absent. -/
theorem recLookup_connFold (connections : List Connection)
    (d : List (String × List String)) (i : String) :
    recLookup (connections.foldl (fun d connection =>
      match recLookup d connection.targetNodeId with
      | some l => recInsert d connection.targetNodeId (l ++ [connection.sourceNodeId])
      | none => d) d) i =
    (recLookup d i).map (fun v =>
      v ++ (connections.filter (fun c => c.targetNodeId == i)).map (·.sourceNodeId)) := by
  induction connections generalizing d with
  | nil =>
    cases h : recLookup d i <;> simp [h]
  | cons c rest ih =>
    simp only [List.foldl_cons, List.filter_cons]
    by_cases hts : c.targetNodeId = i
    · subst hts
      cases hd : recLookup d c.targetNodeId with
      | none =>
        simp only [hd, ih, hd]
        simp
      | some v =>
        simp only [hd, ih, recLookup_recInsert, if_pos rfl]
        simp
    · have hbf : (c.targetNodeId == i) = false := by
        simp only [beq_eq_false_iff_ne]
        exact hts
      cases hd : recLookup d c.targetNodeId with
      | none =>
        simp only [hd, ih, hbf]
        simp
      | some v =>
        have hne : ¬ i = c.targetNodeId := fun h => hts h.symm
        simp only [hd, ih, recLookup_recInsert, if_neg hne, hbf]
        simp

/-- Exact characterisation of the dependency record built by `analyzeFlow`: node
ids map to the source ids of the connections targeting them (in connection order);
other strings are not keys. -/
theorem buildDependencies_lookup (nodes : List CanvasNode)
    (connections : List Connection) (i : String) :
    recLookup (buildDependencies nodes connections) i =
      if i ∈ nodes.map (·.id) then
        some ((connections.filter (fun c => c.targetNodeId == i)).map (·.sourceNodeId))
      else none := by
  unfold buildDependencies
  rw [recLookup_connFold, recLookup_base]
  by_cases h : i ∈ nodes.map (·.id) <;> simp [h, recLookup]

/-! ## State-evolution lemmas for `topoVisit` -/

/-- Unfolding of `topoVisit` at positive fuel, phrased via `topoVisitList`. -/
theorem topoVisit_succ (deps : List (String × List String)) (fuel : Nat)
    (s : TopoState) (nodeId : String) :
    topoVisit deps (fuel + 1) s nodeId =
      if s.visiting.contains nodeId then .ok s
      else if s.visited.contains nodeId then .ok s
      else
        match recLookup deps nodeId with
        | none => .crash
        | some l =>
          match topoVisitList deps fuel { s with visiting := nodeId :: s.visiting } l with
          | .ok s' =>
            .ok { visiting := s'.visiting.erase nodeId,
                  visited := nodeId :: s'.visited,
                  result := s'.result ++ [nodeId] }
          | .crash => .crash
          | .nofuel => .nofuel := rfl

/-- The empty fold. -/
theorem topoVisitList_nil (deps : List (String × List String)) (fuel : Nat)
    (s : TopoState) : topoVisitList deps fuel s [] = .ok s := rfl

/-- A thrown error short-circuits the rest of the fold. -/
theorem topoVisitList_absorb (deps : List (String × List String)) (fuel : Nat)
    (e : JsOutcome TopoState) (he : e = .crash ∨ e = .nofuel) (l : List String) :
    l.foldl (fun acc dep => jsBind acc (fun st => topoVisit deps fuel st dep)) e = e := by
  induction l with
  | nil => rfl
  | cons d ds ih =>
    rcases he with he | he <;> subst he <;> simpa [jsBind] using ih

/-- One step of the fold. -/
theorem topoVisitList_cons (deps : List (String × List String)) (fuel : Nat)
    (s : TopoState) (d : String) (ds : List String) :
    topoVisitList deps fuel s (d :: ds) =
      match topoVisit deps fuel s d with
      | .ok s₁ => topoVisitList deps fuel s₁ ds
      | .crash => .crash
      | .nofuel => .nofuel := by
  show (d :: ds).foldl _ _ = _
  rw [List.foldl_cons]
  cases h : topoVisit deps fuel s d with
  | ok s₁ => simp [jsBind, h, topoVisitList]
  | crash =>
    simp only [jsBind, h]
    exact topoVisitList_absorb deps fuel _ (Or.inl rfl) ds
  | nofuel =>
    simp only [jsBind, h]
    exact topoVisitList_absorb deps fuel _ (Or.inr rfl) ds

/-- How one (or a sequence of) `visit` call(s) relates the state after to the
state before: `visiting` is restored; `result` grows by a suffix `r` of fresh
nodes, none of which was on the `visiting` stack, all of which are keys of the
dependency record; `visited` grows by exactly the members of `r`; and the
invariant "`visited` and `result` have the same members, `result` duplicate-free"
is preserved. -/
def TopoPost (deps : List (String × List String)) (s s' : TopoState) : Prop :=
  s'.visiting = s.visiting ∧
  ∃ r : List String,
    s'.result = s.result ++ r ∧
    (∀ x, x ∈ s'.visited ↔ x ∈ s.visited ∨ x ∈ r) ∧
    (∀ x ∈ r, x ∉ s.visiting) ∧
    (∀ x ∈ r, (recLookup deps x).isSome) ∧
    (((∀ x, x ∈ s.visited ↔ x ∈ s.result) ∧ s.result.Nodup) →
      ((∀ x, x ∈ s'.visited ↔ x ∈ s'.result) ∧ s'.result.Nodup))

/-- `TopoPost` is reflexive. -/
theorem topoPost_refl (deps : List (String × List String)) (s : TopoState) :
    TopoPost deps s s :=
  ⟨rfl, [], by simp, by simp, by simp, by simp, fun h => h⟩

/-- `TopoPost` composes. -/
theorem topoPost_trans {deps : List (String × List String)} {s s₁ s₂ : TopoState}
    (h1 : TopoPost deps s s₁) (h2 : TopoPost deps s₁ s₂) : TopoPost deps s s₂ := by
  obtain ⟨hv1, r1, hr1, hm1, hd1, hs1, hc1⟩ := h1
  obtain ⟨hv2, r2, hr2, hm2, hd2, hs2, hc2⟩ := h2
  refine ⟨hv2.trans hv1, r1 ++ r2, ?_, ?_, ?_, ?_, ?_⟩
  · rw [hr2, hr1, List.append_assoc]
  · intro x
    rw [hm2 x, hm1 x]
    simp [or_assoc]
  · intro x hx
    rcases List.mem_append.mp hx with hx | hx
    · exact hd1 x hx
    · rw [← hv1]
      exact hd2 x hx
  · intro x hx
    rcases List.mem_append.mp hx with hx | hx
    · exact hs1 x hx
    · exact hs2 x hx
  · intro h
    exact hc2 (hc1 h)

/-- The fold version of the bundle, assuming it for single visits at this fuel. -/
theorem topoVisitList_post_of {deps : List (String × List String)} {fuel : Nat}
    (hvisit : ∀ s n s', topoVisit deps fuel s n = .ok s' → TopoPost deps s s') :
    ∀ l s s', topoVisitList deps fuel s l = .ok s' → TopoPost deps s s' := by
  intro l
  induction l with
  | nil =>
    intro s s' h
    rw [topoVisitList_nil] at h
    injection h with h
    subst h
    exact topoPost_refl deps s
  | cons d ds ih =>
    intro s s' h
    rw [topoVisitList_cons] at h
    cases hd : topoVisit deps fuel s d with
    | ok s₁ =>
      rw [hd] at h
      exact topoPost_trans (hvisit _ _ _ hd) (ih _ _ h)
    | crash => rw [hd] at h; exact absurd h (by simp)
    | nofuel => rw [hd] at h; exact absurd h (by simp)

/-- The bundle holds for every successful `topoVisit` call. -/
theorem topoVisit_post (deps : List (String × List String)) :
    ∀ fuel s n s', topoVisit deps fuel s n = .ok s' → TopoPost deps s s' := by
  intro fuel
  induction fuel with
  | zero =>
    intro s n s' h
    exact absurd h (by simp [topoVisit])
  | succ fuel ih =>
    intro s n s' h
    rw [topoVisit_succ] at h
    by_cases h1 : s.visiting.contains n
    · rw [if_pos h1] at h
      injection h with h
      subst h
      exact topoPost_refl deps s
    · rw [if_neg h1] at h
      by_cases h2 : s.visited.contains n
      · rw [if_pos h2] at h
        injection h with h
        subst h
        exact topoPost_refl deps s
      · rw [if_neg h2] at h
        cases hl : recLookup deps n with
        | none => exact absurd h (by simp [hl])
        | some l =>
          simp only [hl] at h
          cases hfold : topoVisitList deps fuel { s with visiting := n :: s.visiting } l with
          | crash => simp only [hfold] at h; exact absurd h (by simp)
          | nofuel => simp only [hfold] at h; exact absurd h (by simp)
          | ok s₁ =>
            simp only [hfold, JsOutcome.ok.injEq] at h
            subst h
            obtain ⟨hvg, r₁, hres, hvis, hdisj, hsome, hcond⟩ :=
              topoVisitList_post_of ih l _ _ hfold
            have hn_not_vis : n ∉ s.visiting := fun hm => h1 (contains_mem.mpr hm)
            have hn_not_vtd : n ∉ s.visited := fun hm => h2 (contains_mem.mpr hm)
            refine ⟨?_, r₁ ++ [n], ?_, ?_, ?_, ?_, ?_⟩
            · show s₁.visiting.erase n = s.visiting
              rw [hvg]
              exact List.erase_cons_head n s.visiting
            · show s₁.result ++ [n] = s.result ++ (r₁ ++ [n])
              rw [hres, List.append_assoc]
            · intro x
              show x ∈ n :: s₁.visited ↔ _
              rw [List.mem_cons, hvis x]
              simp only [List.mem_append, List.mem_singleton]
              tauto
            · intro x hx
              rcases List.mem_append.mp hx with hx | hx
              · have := hdisj x hx
                simp only [List.mem_cons, not_or] at this
                exact this.2
              · rw [List.mem_singleton] at hx
                subst hx
                exact hn_not_vis
            · intro x hx
              rcases List.mem_append.mp hx with hx | hx
              · exact hsome x hx
              · rw [List.mem_singleton] at hx
                subst hx
                simp [hl]
            · rintro ⟨hmem, hnd⟩
              have hinner := hcond ⟨hmem, hnd⟩
              obtain ⟨hmem₁, hnd₁⟩ := hinner
              have hn_not_res : n ∉ s₁.result := by
                rw [hres, List.mem_append]
                rintro (hx | hx)
                · exact hn_not_vtd ((hmem n).mpr hx)
                · exact (hdisj n hx) (List.mem_cons_self n s.visiting)
              constructor
              · intro x
                show x ∈ n :: s₁.visited ↔ x ∈ s₁.result ++ [n]
                rw [List.mem_cons, hmem₁ x]
                simp only [List.mem_append, List.mem_singleton]
                tauto
              · show (s₁.result ++ [n]).Nodup
                rw [List.nodup_append]
                exact ⟨hnd₁, List.nodup_singleton n, by
                  intro a ha hb
                  rw [List.mem_singleton] at hb
                  subst hb
                  exact hn_not_res ha⟩

/-- After a successful visit the visited node is settled (unless it was on the
recursion stack, in which case the call was a no-op). -/
theorem topoVisit_visited (deps : List (String × List String)) (fuel : Nat)
    (s : TopoState) (n : String) (s' : TopoState)
    (h : topoVisit deps fuel s n = .ok s') :
    n ∈ s'.visited ∨ n ∈ s.visiting := by
  cases fuel with
  | zero => exact absurd h (by simp [topoVisit])
  | succ fuel =>
    rw [topoVisit_succ] at h
    by_cases h1 : s.visiting.contains n
    · exact Or.inr (contains_mem.mp h1)
    · rw [if_neg h1] at h
      by_cases h2 : s.visited.contains n
      · rw [if_pos h2] at h
        injection h with h
        subst h
        exact Or.inl (contains_mem.mp h2)
      · rw [if_neg h2] at h
        cases hl : recLookup deps n with
        | none => exact absurd h (by simp [hl])
        | some l =>
          simp only [hl] at h
          cases hfold : topoVisitList deps fuel { s with visiting := n :: s.visiting } l with
          | crash => simp only [hfold] at h; exact absurd h (by simp)
          | nofuel => simp only [hfold] at h; exact absurd h (by simp)
          | ok s₁ =>
            simp only [hfold, JsOutcome.ok.injEq] at h
            subst h
            exact Or.inl (List.mem_cons_self n s₁.visited)

/-- Every node of a successfully folded list is settled (or was on the stack). -/
theorem topoVisitList_visited (deps : List (String × List String)) (fuel : Nat) :
    ∀ (l : List String) (s s' : TopoState),
      topoVisitList deps fuel s l = .ok s' →
      ∀ d ∈ l, d ∈ s'.visited ∨ d ∈ s.visiting := by
  intro l
  induction l with
  | nil => intro s s' _ d hd; exact absurd hd (List.not_mem_nil d)
  | cons d₀ ds ih =>
    intro s s' h d hd
    rw [topoVisitList_cons] at h
    cases hv : topoVisit deps fuel s d₀ with
    | crash => rw [hv] at h; exact absurd h (by simp)
    | nofuel => rw [hv] at h; exact absurd h (by simp)
    | ok s₁ =>
      rw [hv] at h
      obtain ⟨hvg₁, _⟩ := topoVisit_post deps fuel s d₀ s₁ hv
      obtain ⟨hvg₂, r₂, _, hmem₂, _⟩ := topoVisitList_post_of
        (topoVisit_post deps fuel) ds s₁ s' h
      rcases List.mem_cons.mp hd with hd | hd
      · subst hd
        rcases topoVisit_visited deps fuel s d s₁ hv with hin | hin
        · exact Or.inl ((hmem₂ d).mpr (Or.inl hin))
        · exact Or.inr hin
      · rcases ih s₁ s' h d hd with hin | hin
        · exact Or.inl hin
        · rw [hvg₁] at hin
          exact Or.inr hin

/-- Number of distinct keys of the dependency record. -/
def keyCount (deps : List (String × List String)) : Nat :=
  (deps.map Prod.fst).dedup.length

/-- A key is present exactly when lookup succeeds. -/
theorem recLookup_isSome_iff (d : List (String × List String)) (k : String) :
    (recLookup d k).isSome ↔ k ∈ d.map Prod.fst := by
  constructor
  · intro h
    rw [recLookup] at h
    cases hf : d.find? (fun p => p.1 == k) with
    | none => rw [hf] at h; simp at h
    | some p =>
      have hp := List.find?_some hf
      have hmem := List.mem_of_find?_eq_some hf
      rw [List.mem_map]
      exact ⟨p, hmem, by simpa [beq_iff_eq] using hp⟩
  · intro hm
    rw [List.mem_map] at hm
    obtain ⟨p, hp, he⟩ := hm
    rw [recLookup]
    have hs : (d.find? (fun p => p.1 == k)).isSome :=
      List.find?_isSome.mpr ⟨p, hp, by simp [beq_iff_eq, he]⟩
    cases hf : d.find? (fun p => p.1 == k) with
    | none => rw [hf] at hs; simp at hs
    | some q => simp [hf]

/-- A duplicate-free stack of keys is no longer than the key count. -/
theorem visiting_length_le (deps : List (String × List String)) (visiting : List String)
    (hnd : visiting.Nodup) (hkeys : ∀ v ∈ visiting, (recLookup deps v).isSome) :
    visiting.length ≤ keyCount deps := by
  classical
  have hsub : visiting ⊆ (deps.map Prod.fst).dedup := by
    intro v hv
    rw [List.mem_dedup]
    exact (recLookup_isSome_iff deps v).mp (hkeys v hv)
  calc visiting.length = visiting.toFinset.card := (List.toFinset_card_of_nodup hnd).symm
    _ ≤ (deps.map Prod.fst).dedup.toFinset.card := Finset.card_le_card (by
        intro a ha
        rw [List.mem_toFinset] at *
        exact hsub ha)
    _ ≤ (deps.map Prod.fst).dedup.length := List.toFinset_card_le _

/-- Fold version of fuel sufficiency, given it for single visits at this fuel. -/
theorem topoVisitList_ne_nofuel_of {deps : List (String × List String)} {fuel : Nat}
    (hvisit : ∀ s n, s.visiting.Nodup → (∀ v ∈ s.visiting, (recLookup deps v).isSome) →
      keyCount deps + 1 ≤ fuel + s.visiting.length → topoVisit deps fuel s n ≠ .nofuel) :
    ∀ (l : List String) (s : TopoState),
      s.visiting.Nodup → (∀ v ∈ s.visiting, (recLookup deps v).isSome) →
      keyCount deps + 1 ≤ fuel + s.visiting.length →
      topoVisitList deps fuel s l ≠ .nofuel := by
  intro l
  induction l with
  | nil => intro s _ _ _ h; rw [topoVisitList_nil] at h; exact absurd h (by simp)
  | cons d ds ih =>
    intro s hnd hkeys hle h
    rw [topoVisitList_cons] at h
    cases hv : topoVisit deps fuel s d with
    | crash => rw [hv] at h; exact absurd h (by simp)
    | nofuel => exact hvisit s d hnd hkeys hle hv
    | ok s₁ =>
      rw [hv] at h
      obtain ⟨hvg, _⟩ := topoVisit_post deps fuel s d s₁ hv
      exact ih s₁ (hvg ▸ hnd) (hvg ▸ hkeys) (hvg ▸ hle) h

/-- The chosen fuel bound is sufficient: a visit never exhausts its fuel while the
recursion stack is a duplicate-free list of record keys and the fuel dominates the
number of keys not yet on the stack. -/
theorem topoVisit_ne_nofuel (deps : List (String × List String)) :
    ∀ (fuel : Nat) (s : TopoState) (n : String),
      s.visiting.Nodup → (∀ v ∈ s.visiting, (recLookup deps v).isSome) →
      keyCount deps + 1 ≤ fuel + s.visiting.length →
      topoVisit deps fuel s n ≠ .nofuel := by
  intro fuel
  induction fuel with
  | zero =>
    intro s n hnd hkeys hle
    have := visiting_length_le deps s.visiting hnd hkeys
    omega
  | succ fuel ih =>
    intro s n hnd hkeys hle h
    rw [topoVisit_succ] at h
    by_cases h1 : s.visiting.contains n
    · rw [if_pos h1] at h; exact absurd h (by simp)
    · rw [if_neg h1] at h
      by_cases h2 : s.visited.contains n
      · rw [if_pos h2] at h; exact absurd h (by simp)
      · rw [if_neg h2] at h
        cases hl : recLookup deps n with
        | none => rw [hl] at h; exact absurd h (by simp)
        | some l =>
          simp only [hl] at h
          have hnd' : (n :: s.visiting).Nodup := by
            rw [List.nodup_cons]
            exact ⟨fun hm => h1 (contains_mem.mpr hm), hnd⟩
          have hkeys' : ∀ v ∈ n :: s.visiting, (recLookup deps v).isSome := by
            intro v hv
            rcases List.mem_cons.mp hv with hv | hv
            · subst hv; simp [hl]
            · exact hkeys v hv
          have hle' : keyCount deps + 1 ≤ fuel + (n :: s.visiting).length := by
            simp only [List.length_cons]
            omega
          cases hfold : topoVisitList deps fuel { s with visiting := n :: s.visiting } l with
          | ok s₁ => simp only [hfold] at h; exact absurd h (by simp)
          | crash => simp only [hfold] at h; exact absurd h (by simp)
          | nofuel =>
            exact topoVisitList_ne_nofuel_of (fun s n => ih s n) l
              { s with visiting := n :: s.visiting } hnd' hkeys' hle' hfold

/-- Closedness of a dependency record: every id appearing in some dependency list
is itself a key. -/
def ClosedDeps (deps : List (String × List String)) : Prop :=
  ∀ k l, recLookup deps k = some l → ∀ d ∈ l, (recLookup deps d).isSome

/-- Fold version of crash-freedom, given it for single visits at this fuel. -/
theorem topoVisitList_ne_crash_of {deps : List (String × List String)} {fuel : Nat}
    (hvisit : ∀ s n, ((recLookup deps n).isSome ∨ n ∈ s.visiting ∨ n ∈ s.visited) →
      topoVisit deps fuel s n ≠ .crash) :
    ∀ (l : List String) (s : TopoState),
      (∀ d ∈ l, (recLookup deps d).isSome) →
      topoVisitList deps fuel s l ≠ .crash := by
  intro l
  induction l with
  | nil => intro s _ h; rw [topoVisitList_nil] at h; exact absurd h (by simp)
  | cons d ds ih =>
    intro s hall h
    rw [topoVisitList_cons] at h
    cases hv : topoVisit deps fuel s d with
    | nofuel => rw [hv] at h; exact absurd h (by simp)
    | crash => exact hvisit s d (Or.inl (hall d (List.mem_cons_self d ds))) hv
    | ok s₁ =>
      rw [hv] at h
      exact ih s₁ (fun d' hd' => hall d' (List.mem_cons_of_mem d hd')) h

/-- Crash-freedom: with a closed dependency record, a visit of a key (or of an
already-stacked or settled node) never throws. -/
theorem topoVisit_ne_crash (deps : List (String × List String)) (hc : ClosedDeps deps) :
    ∀ (fuel : Nat) (s : TopoState) (n : String),
      ((recLookup deps n).isSome ∨ n ∈ s.visiting ∨ n ∈ s.visited) →
      topoVisit deps fuel s n ≠ .crash := by
  intro fuel
  induction fuel with
  | zero => intro s n _ h; exact absurd h (by simp [topoVisit])
  | succ fuel ih =>
    intro s n hn h
    rw [topoVisit_succ] at h
    by_cases h1 : s.visiting.contains n
    · rw [if_pos h1] at h; exact absurd h (by simp)
    · rw [if_neg h1] at h
      by_cases h2 : s.visited.contains n
      · rw [if_pos h2] at h; exact absurd h (by simp)
      · rw [if_neg h2] at h
        cases hl : recLookup deps n with
        | none =>
          rcases hn with hn | hn | hn
          · rw [hl] at hn; exact absurd hn (by simp)
          · exact h1 (contains_mem.mpr hn)
          · exact h2 (contains_mem.mpr hn)
        | some l =>
          simp only [hl] at h
          cases hfold : topoVisitList deps fuel { s with visiting := n :: s.visiting } l with
          | ok s₁ => simp only [hfold] at h; exact absurd h (by simp)
          | nofuel => simp only [hfold] at h; exact absurd h (by simp)
          | crash =>
            exact topoVisitList_ne_crash_of (fun s n hn => ih s n hn) l
              { s with visiting := n :: s.visiting } (hc n l hl) hfold

/-- Combination: with a closed record, a keyed visit with sufficient fuel returns. -/
theorem topoVisitList_ok (deps : List (String × List String)) (hc : ClosedDeps deps)
    (fuel : Nat) (l : List String) (s : TopoState)
    (hnd : s.visiting.Nodup) (hkeys : ∀ v ∈ s.visiting, (recLookup deps v).isSome)
    (hle : keyCount deps + 1 ≤ fuel + s.visiting.length)
    (hall : ∀ d ∈ l, (recLookup deps d).isSome) :
    ∃ s', topoVisitList deps fuel s l = .ok s' := by
  cases hout : topoVisitList deps fuel s l with
  | ok s' => exact ⟨s', rfl⟩
  | crash =>
    exact absurd hout (topoVisitList_ne_crash_of
      (fun s n hn => topoVisit_ne_crash deps hc fuel s n hn) l s hall)
  | nofuel =>
    exact absurd hout (topoVisitList_ne_nofuel_of
      (fun s n hnd' hkeys' hle' => topoVisit_ne_nofuel deps fuel s n hnd' hkeys' hle')
      l s hnd hkeys hle)

/-! ## State-evolution lemmas for `cycVisit` -/

/-- The `forEach` of `cycVisit` over a dependency list at a fixed path. -/
def cycVisitList (deps : List (String × List String)) (fuel : Nat) (path : List String)
    (s : CycState) (l : List String) : JsOutcome CycState :=
  l.foldl (fun acc dep => jsBind acc (fun st => cycVisit deps fuel st dep path)) (.ok s)

/-- Unfolding of `cycVisit` at positive fuel, phrased via `cycVisitList`. -/
theorem cycVisit_succ (deps : List (String × List String)) (fuel : Nat)
    (s : CycState) (nodeId : String) (path : List String) :
    cycVisit deps (fuel + 1) s nodeId path =
      if s.visiting.contains nodeId then
        .ok { s with cycles := s.cycles ++ [path.drop (path.indexOf nodeId)] }
      else if s.visited.contains nodeId then .ok s
      else
        match recLookup deps nodeId with
        | none => .crash
        | some l =>
          match cycVisitList deps fuel (path ++ [nodeId])
              { s with visiting := nodeId :: s.visiting } l with
          | .ok s' =>
            .ok { visiting := s'.visiting.erase nodeId,
                  visited := nodeId :: s'.visited,
                  cycles := s'.cycles }
          | .crash => .crash
          | .nofuel => .nofuel := rfl

/-- A thrown error short-circuits the rest of the cycle fold. -/
theorem cycVisitList_absorb (deps : List (String × List String)) (fuel : Nat)
    (path : List String) (e : JsOutcome CycState) (he : e = .crash ∨ e = .nofuel)
    (l : List String) :
    l.foldl (fun acc dep => jsBind acc (fun st => cycVisit deps fuel st dep path)) e = e := by
  induction l with
  | nil => rfl
  | cons d ds ih =>
    rcases he with he | he <;> subst he <;> simpa [jsBind] using ih

/-- One step of the cycle fold. -/
theorem cycVisitList_cons (deps : List (String × List String)) (fuel : Nat)
    (path : List String) (s : CycState) (d : String) (ds : List String) :
    cycVisitList deps fuel path s (d :: ds) =
      match cycVisit deps fuel s d path with
      | .ok s₁ => cycVisitList deps fuel path s₁ ds
      | .crash => .crash
      | .nofuel => .nofuel := by
  show (d :: ds).foldl _ _ = _
  rw [List.foldl_cons]
  cases h : cycVisit deps fuel s d path with
  | ok s₁ => simp [jsBind, h, cycVisitList]
  | crash =>
    simp only [jsBind, h]
    exact cycVisitList_absorb deps fuel path _ (Or.inl rfl) ds
  | nofuel =>
    simp only [jsBind, h]
    exact cycVisitList_absorb deps fuel path _ (Or.inr rfl) ds

/-- A successful cycle visit restores the `visiting` stack. -/
theorem cycVisit_post (deps : List (String × List String)) :
    ∀ (fuel : Nat) (s : CycState) (n : String) (path : List String) (s' : CycState),
      cycVisit deps fuel s n path = .ok s' → s'.visiting = s.visiting := by
  intro fuel
  induction fuel with
  | zero => intro s n path s' h; exact absurd h (by simp [cycVisit])
  | succ fuel ih =>
    have hlist : ∀ (l : List String) (path : List String) (s s' : CycState),
        cycVisitList deps fuel path s l = .ok s' → s'.visiting = s.visiting := by
      intro l
      induction l with
      | nil =>
        intro path s s' h
        injection h with h
        subst h
        rfl
      | cons d ds ihl =>
        intro path s s' h
        rw [cycVisitList_cons] at h
        cases hv : cycVisit deps fuel s d path with
        | crash => rw [hv] at h; exact absurd h (by simp)
        | nofuel => rw [hv] at h; exact absurd h (by simp)
        | ok s₁ =>
          rw [hv] at h
          exact (ihl path s₁ s' h).trans (ih s d path s₁ hv)
    intro s n path s' h
    rw [cycVisit_succ] at h
    by_cases h1 : s.visiting.contains n
    · rw [if_pos h1] at h
      injection h with h
      subst h
      rfl
    · rw [if_neg h1] at h
      by_cases h2 : s.visited.contains n
      · rw [if_pos h2] at h
        injection h with h
        subst h
        rfl
      · rw [if_neg h2] at h
        cases hl : recLookup deps n with
        | none => exact absurd h (by simp [hl])
        | some l =>
          simp only [hl] at h
          cases hfold : cycVisitList deps fuel (path ++ [n])
              { s with visiting := n :: s.visiting } l with
          | crash => simp only [hfold] at h; exact absurd h (by simp)
          | nofuel => simp only [hfold] at h; exact absurd h (by simp)
          | ok s₁ =>
            simp only [hfold, JsOutcome.ok.injEq] at h
            subst h
            show s₁.visiting.erase n = s.visiting
            rw [hlist l (path ++ [n]) _ s₁ hfold]
            exact List.erase_cons_head n s.visiting

/-- Fuel sufficiency for the cycle DFS (same bound as for the ordering DFS). -/
theorem cycVisit_ne_nofuel (deps : List (String × List String)) :
    ∀ (fuel : Nat) (s : CycState) (n : String) (path : List String),
      s.visiting.Nodup → (∀ v ∈ s.visiting, (recLookup deps v).isSome) →
      keyCount deps + 1 ≤ fuel + s.visiting.length →
      cycVisit deps fuel s n path ≠ .nofuel := by
  intro fuel
  induction fuel with
  | zero =>
    intro s n path hnd hkeys hle
    have := visiting_length_le deps s.visiting hnd hkeys
    omega
  | succ fuel ih =>
    have hlist : ∀ (l : List String) (path : List String) (s : CycState),
        s.visiting.Nodup → (∀ v ∈ s.visiting, (recLookup deps v).isSome) →
        keyCount deps + 1 ≤ fuel + s.visiting.length →
        cycVisitList deps fuel path s l ≠ .nofuel := by
      intro l
      induction l with
      | nil => intro path s _ _ _ h; injection h
      | cons d ds ihl =>
        intro path s hnd hkeys hle h
        rw [cycVisitList_cons] at h
        cases hv : cycVisit deps fuel s d path with
        | crash => rw [hv] at h; exact absurd h (by simp)
        | nofuel => exact ih s d path hnd hkeys hle hv
        | ok s₁ =>
          rw [hv] at h
          have hvg := cycVisit_post deps fuel s d path s₁ hv
          exact ihl path s₁ (hvg ▸ hnd) (hvg ▸ hkeys) (hvg ▸ hle) h
    intro s n path hnd hkeys hle h
    rw [cycVisit_succ] at h
    by_cases h1 : s.visiting.contains n
    · rw [if_pos h1] at h; exact absurd h (by simp)
    · rw [if_neg h1] at h
      by_cases h2 : s.visited.contains n
      · rw [if_pos h2] at h; exact absurd h (by simp)
      · rw [if_neg h2] at h
        cases hl : recLookup deps n with
        | none => rw [hl] at h; exact absurd h (by simp)
        | some l =>
          simp only [hl] at h
          have hnd' : (n :: s.visiting).Nodup := by
            rw [List.nodup_cons]
            exact ⟨fun hm => h1 (contains_mem.mpr hm), hnd⟩
          have hkeys' : ∀ v ∈ n :: s.visiting, (recLookup deps v).isSome := by
            intro v hv
            rcases List.mem_cons.mp hv with hv | hv
            · subst hv; simp [hl]
            · exact hkeys v hv
          have hle' : keyCount deps + 1 ≤ fuel + (n :: s.visiting).length := by
            simp only [List.length_cons]
            omega
          cases hfold : cycVisitList deps fuel (path ++ [n])
              { s with visiting := n :: s.visiting } l with
          | ok s₁ => simp only [hfold] at h; exact absurd h (by simp)
          | crash => simp only [hfold] at h; exact absurd h (by simp)
          | nofuel =>
            exact hlist l (path ++ [n]) { s with visiting := n :: s.visiting }
              hnd' hkeys' hle' hfold

/-- Crash-freedom for the cycle DFS over a closed record. -/
theorem cycVisit_ne_crash (deps : List (String × List String)) (hc : ClosedDeps deps) :
    ∀ (fuel : Nat) (s : CycState) (n : String) (path : List String),
      ((recLookup deps n).isSome ∨ n ∈ s.visiting ∨ n ∈ s.visited) →
      cycVisit deps fuel s n path ≠ .crash := by
  intro fuel
  induction fuel with
  | zero => intro s n path _ h; exact absurd h (by simp [cycVisit])
  | succ fuel ih =>
    have hlist : ∀ (l : List String) (path : List String) (s : CycState),
        (∀ d ∈ l, (recLookup deps d).isSome) →
        cycVisitList deps fuel path s l ≠ .crash := by
      intro l
      induction l with
      | nil => intro path s _ h; injection h
      | cons d ds ihl =>
        intro path s hall h
        rw [cycVisitList_cons] at h
        cases hv : cycVisit deps fuel s d path with
        | nofuel => rw [hv] at h; exact absurd h (by simp)
        | crash => exact ih s d path (Or.inl (hall d (List.mem_cons_self d ds))) hv
        | ok s₁ =>
          rw [hv] at h
          exact ihl path s₁ (fun d' hd' => hall d' (List.mem_cons_of_mem d hd')) h
    intro s n path hn h
    rw [cycVisit_succ] at h
    by_cases h1 : s.visiting.contains n
    · rw [if_pos h1] at h; exact absurd h (by simp)
    · rw [if_neg h1] at h
      by_cases h2 : s.visited.contains n
      · rw [if_pos h2] at h; exact absurd h (by simp)
      · rw [if_neg h2] at h
        cases hl : recLookup deps n with
        | none =>
          rcases hn with hn | hn | hn
          · rw [hl] at hn; exact absurd hn (by simp)
          · exact h1 (contains_mem.mpr hn)
          · exact h2 (contains_mem.mpr hn)
        | some l =>
          simp only [hl] at h
          cases hfold : cycVisitList deps fuel (path ++ [n])
              { s with visiting := n :: s.visiting } l with
          | ok s₁ => simp only [hfold] at h; exact absurd h (by simp)
          | nofuel => simp only [hfold] at h; exact absurd h (by simp)
          | crash =>
            exact hlist l (path ++ [n]) { s with visiting := n :: s.visiting }
              (hc n l hl) hfold

/-- The cycle fold over the node ids returns whenever the record is closed, every
node id is a key, and the fuel dominates the key count. -/
theorem cycVisitList_ok (deps : List (String × List String)) (hc : ClosedDeps deps)
    (fuel : Nat) (path : List String) (l : List String) (s : CycState)
    (hnd : s.visiting.Nodup) (hkeys : ∀ v ∈ s.visiting, (recLookup deps v).isSome)
    (hle : keyCount deps + 1 ≤ fuel + s.visiting.length)
    (hall : ∀ d ∈ l, (recLookup deps d).isSome) :
    ∃ s', cycVisitList deps fuel path s l = .ok s' := by
  induction l generalizing s with
  | nil => exact ⟨s, rfl⟩
  | cons d ds ih =>
    rw [cycVisitList_cons]
    cases hv : cycVisit deps fuel s d path with
    | crash =>
      exact absurd hv (cycVisit_ne_crash deps hc fuel s d path
        (Or.inl (hall d (List.mem_cons_self d ds))))
    | nofuel => exact absurd hv (cycVisit_ne_nofuel deps fuel s d path hnd hkeys hle)
    | ok s₁ =>
      have hvg := cycVisit_post deps fuel s d path s₁ hv
      exact ih s₁ (hvg ▸ hnd) (hvg ▸ hkeys) (hvg ▸ hle)
        (fun d' hd' => hall d' (List.mem_cons_of_mem d hd'))

/-! ## `analyzeFlow` returns normally when connection sources resolve -/

/-- `detectCycles`, phrased via `cycVisitList`. -/
theorem detectCycles_def (nodeIds : List String) (deps : List (String × List String)) :
    detectCycles nodeIds deps =
      match cycVisitList deps (nodeIds.dedup.length + 1) [] ⟨[], [], []⟩ nodeIds with
      | .ok s => .ok s.cycles
      | .crash => .crash
      | .nofuel => .nofuel := rfl

/-- Under resolving connection sources the dependency record is closed. -/
theorem buildDependencies_closed (nodes : List CanvasNode) (connections : List Connection)
    (h1 : ∀ c ∈ connections, c.sourceNodeId ∈ nodes.map (·.id)) :
    ClosedDeps (buildDependencies nodes connections) := by
  intro k l hl d hd
  rw [buildDependencies_lookup] at hl
  by_cases hk : k ∈ nodes.map (·.id)
  · rw [if_pos hk] at hl
    injection hl with hl
    subst hl
    rw [List.mem_map] at hd
    obtain ⟨c, hc, he⟩ := hd
    rw [buildDependencies_lookup,
      if_pos (he ▸ h1 c (List.mem_of_mem_filter hc))]
    simp
  · rw [if_neg hk] at hl
    exact absurd hl (by simp)

/-- Every node id is a key of the dependency record. -/
theorem buildDependencies_keyed (nodes : List CanvasNode) (connections : List Connection) :
    ∀ i ∈ nodes.map (·.id), (recLookup (buildDependencies nodes connections) i).isSome := by
  intro i hi
  rw [buildDependencies_lookup, if_pos hi]
  simp

/-- Key count of the dependency record. -/
theorem buildDependencies_keyCount (nodes : List CanvasNode)
    (connections : List Connection) :
    keyCount (buildDependencies nodes connections) = (nodes.map (·.id)).dedup.length := by
  have hiff : ∀ x, x ∈ ((buildDependencies nodes connections).map Prod.fst).dedup ↔
      x ∈ (nodes.map (·.id)).dedup := by
    intro x
    rw [List.mem_dedup, List.mem_dedup, ← recLookup_isSome_iff, buildDependencies_lookup]
    by_cases h : x ∈ nodes.map (·.id) <;> simp [h]
  exact ((List.perm_ext_iff_of_nodup (List.nodup_dedup _) (List.nodup_dedup _)).mpr
    hiff).length_eq

/-- Main run lemma: when every connection's source id resolves, both traversals of
`analyzeFlow` return, and the execution order is the `result` of the ordering
fold started from the empty state. -/
theorem analyzeFlow_run (nodes : List CanvasNode) (connections : List Connection)
    (h1 : ∀ c ∈ connections, c.sourceNodeId ∈ nodes.map (·.id)) :
    ∃ (s : TopoState) (cs : List (List String)),
      topoVisitList (buildDependencies nodes connections)
        ((nodes.map (·.id)).dedup.length + 1) ⟨[], [], []⟩ (nodes.map (·.id)) = .ok s ∧
      analyzeFlow nodes connections =
        .ok ⟨s.result, buildDependencies nodes connections, cs,
             findIsolatedNodes nodes connections⟩ := by
  have hclosed := buildDependencies_closed nodes connections h1
  have hkeyed := buildDependencies_keyed nodes connections
  have hkc := buildDependencies_keyCount nodes connections
  obtain ⟨s, hs⟩ := topoVisitList_ok (buildDependencies nodes connections) hclosed
    ((nodes.map (·.id)).dedup.length + 1) (nodes.map (·.id)) ⟨[], [], []⟩
    (by simp) (by simp) (by rw [hkc]; simp) hkeyed
  obtain ⟨sc, hsc⟩ := cycVisitList_ok (buildDependencies nodes connections) hclosed
    ((nodes.map (·.id)).dedup.length + 1) [] (nodes.map (·.id)) ⟨[], [], []⟩
    (by simp) (by simp) (by rw [hkc]; simp) hkeyed
  refine ⟨s, sc.cycles, hs, ?_⟩
  unfold analyzeFlow topologicalSort
  simp only [detectCycles_def, hs, hsc]

/-! ## Claim C10 -/

/-- Claim C10 (confirmed): whenever every connection's `sourceNodeId` resolves to
a node of the input — cycles and isolated nodes allowed, targets arbitrary —
`analyzeFlow` returns normally and its `executionOrder` lists each input node id
exactly once: it is duplicate-free, contains exactly the input node ids, and is a
permutation of the deduplicated input id sequence (of the id sequence itself when
ids are unique, as the data model requires). -/
theorem analyzeFlow_order_is_permutation (nodes : List CanvasNode)
    (connections : List Connection)
    (h1 : ∀ c ∈ connections, c.sourceNodeId ∈ nodes.map (·.id)) :
    ∃ fa, analyzeFlow nodes connections = .ok fa ∧
      fa.executionOrder.Nodup ∧
      (∀ i, i ∈ fa.executionOrder ↔ i ∈ nodes.map (·.id)) ∧
      fa.executionOrder.Perm (nodes.map (·.id)).dedup := by
  obtain ⟨s, cs, hs, hfa⟩ := analyzeFlow_run nodes connections h1
  obtain ⟨hvg, r, hres, hmem, hdisj, hsome, hcond⟩ :=
    topoVisitList_post_of (topoVisit_post (buildDependencies nodes connections) _)
      (nodes.map (·.id)) ⟨[], [], []⟩ s hs
  obtain ⟨hmemEq, hnd⟩ := hcond ⟨by simp, by simp⟩
  have hmember : ∀ i, i ∈ s.result ↔ i ∈ nodes.map (·.id) := by
    intro i
    constructor
    · intro hi
      have hir : i ∈ r := by
        have := hres ▸ hi
        simpa using this
      have := hsome i hir
      rw [recLookup_isSome_iff] at this
      have h2 := (recLookup_isSome_iff _ i).mpr this
      rw [buildDependencies_lookup] at h2
      by_cases h3 : i ∈ nodes.map (·.id)
      · exact h3
      · rw [if_neg h3] at h2
        exact absurd h2 (by simp)
    · intro hi
      rcases topoVisitList_visited _ _ _ _ _ hs i hi with hin | hin
      · exact (hmemEq i).mp hin
      · exact absurd hin (List.not_mem_nil i)
  refine ⟨_, hfa, hnd, hmember, ?_⟩
  exact (List.perm_ext_iff_of_nodup hnd (List.nodup_dedup _)).mpr
    (fun a => (hmember a).trans List.mem_dedup.symm)

/-- Witness for C10 on a graph with a two-node cycle (`N1 ↔ N2`) and an isolated
node `N3`: the execution order is a permutation of all three ids. -/
theorem analyzeFlow_order_is_permutation_witness :
    ∃ fa, analyzeFlow
        [⟨"N1", "instruction", "N1", [], []⟩, ⟨"N2", "instruction", "N2", [], []⟩,
         ⟨"N3", "instruction", "N3", [], []⟩]
        [⟨"c1", "N1", "N2", "p", "q"⟩, ⟨"c2", "N2", "N1", "p", "q"⟩] = .ok fa ∧
      fa.executionOrder.Nodup ∧
      (∀ i, i ∈ fa.executionOrder ↔
        i ∈ ([⟨"N1", "instruction", "N1", [], []⟩, ⟨"N2", "instruction", "N2", [], []⟩,
              ⟨"N3", "instruction", "N3", [], []⟩] : List CanvasNode).map (·.id)) ∧
      fa.executionOrder.Perm
        (([⟨"N1", "instruction", "N1", [], []⟩, ⟨"N2", "instruction", "N2", [], []⟩,
           ⟨"N3", "instruction", "N3", [], []⟩] : List CanvasNode).map (·.id)).dedup :=
  analyzeFlow_order_is_permutation _ _ (by decide)

/-! ## Claim C6 -/

/-- Appending a fresh element puts it at index `length`. -/
theorem indexOf_append_fresh (l : List String) (a : String) (h : a ∉ l) :
    (l ++ [a]).indexOf a = l.length := by
  induction l with
  | nil => simp
  | cons b rest ih =>
    rw [List.cons_append, List.indexOf_cons]
    have hne : (b == a) = false := by
      simp only [beq_eq_false_iff_ne]
      intro hba
      exact h (hba ▸ List.mem_cons_self b rest)
    simp [hne, ih (fun hm => h (List.mem_cons_of_mem b hm))]

/-- The dependency edge of the record: `y` is listed among the dependencies of
`x`, i.e. some connection `y → x` was recorded. -/
def depEdge (deps : List (String × List String)) (x y : String) : Prop :=
  ∃ l, recLookup deps x = some l ∧ y ∈ l

/-- The ordering invariant: every settled node's dependencies are settled earlier. -/
def TopoSorted (deps : List (String × List String)) (s : TopoState) : Prop :=
  ∀ m d, m ∈ s.result → depEdge deps m d →
    d ∈ s.result ∧ s.result.indexOf d < s.result.indexOf m

/-- On a dependency-acyclic record, every successful visit preserves the
ordering invariant, provided every stacked node transitively depends on the
visited one. -/
theorem topoVisit_sorted (deps : List (String × List String))
    (hnc : ∀ x, ¬ Relation.TransGen (depEdge deps) x x) :
    ∀ (fuel : Nat) (s : TopoState) (n : String) (s' : TopoState),
      topoVisit deps fuel s n = .ok s' →
      (∀ v ∈ s.visiting, Relation.TransGen (depEdge deps) v n) →
      ((∀ x, x ∈ s.visited ↔ x ∈ s.result) ∧ s.result.Nodup) →
      TopoSorted deps s → TopoSorted deps s' := by
  intro fuel
  induction fuel with
  | zero => intro s n s' h; exact absurd h (by simp [topoVisit])
  | succ fuel ih =>
    have hlist : ∀ (l : List String) (s s' : TopoState),
        topoVisitList deps fuel s l = .ok s' →
        (∀ d ∈ l, ∀ v ∈ s.visiting, Relation.TransGen (depEdge deps) v d) →
        ((∀ x, x ∈ s.visited ↔ x ∈ s.result) ∧ s.result.Nodup) →
        TopoSorted deps s → TopoSorted deps s' := by
      intro l
      induction l with
      | nil =>
        intro s s' h _ _ hsort
        rw [topoVisitList_nil] at h
        injection h with h
        subst h
        exact hsort
      | cons d ds ihl =>
        intro s s' h hpre hinv hsort
        rw [topoVisitList_cons] at h
        cases hv : topoVisit deps fuel s d with
        | crash => rw [hv] at h; exact absurd h (by simp)
        | nofuel => rw [hv] at h; exact absurd h (by simp)
        | ok s₁ =>
          rw [hv] at h
          obtain ⟨hvg, r, hres, hmem, hdisj, hsome, hcond⟩ := topoVisit_post deps fuel s d s₁ hv
          exact ihl s₁ s' h
            (fun d' hd' v hv' => hpre d' (List.mem_cons_of_mem d hd') v (hvg ▸ hv'))
            (hcond hinv)
            (ih s d s₁ hv (fun v hv' => hpre d (List.mem_cons_self d ds) v hv') hinv hsort)
    intro s n s' h hpre hinv hsort
    rw [topoVisit_succ] at h
    by_cases h1 : s.visiting.contains n
    · rw [if_pos h1] at h
      injection h with h
      subst h
      exact hsort
    · rw [if_neg h1] at h
      by_cases h2 : s.visited.contains n
      · rw [if_pos h2] at h
        injection h with h
        subst h
        exact hsort
      · rw [if_neg h2] at h
        cases hl : recLookup deps n with
        | none => exact absurd h (by simp [hl])
        | some l =>
          simp only [hl] at h
          cases hfold : topoVisitList deps fuel { s with visiting := n :: s.visiting } l with
          | crash => simp only [hfold] at h; exact absurd h (by simp)
          | nofuel => simp only [hfold] at h; exact absurd h (by simp)
          | ok s₁ =>
            simp only [hfold, JsOutcome.ok.injEq] at h
            subst h
            obtain ⟨hvg, r₁, hres, hmemr, hdisj, hsome, hcond⟩ :=
              topoVisitList_post_of (topoVisit_post deps fuel) l _ _ hfold
            obtain ⟨hmem₁, hnd₁⟩ := hcond hinv
            have hpre' : ∀ d ∈ l, ∀ v ∈ (n :: s.visiting),
                Relation.TransGen (depEdge deps) v d := by
              intro d hd v hv
              rcases List.mem_cons.mp hv with hv | hv
              · subst hv
                exact Relation.TransGen.single ⟨l, hl, hd⟩
              · exact Relation.TransGen.tail (hpre v hv) ⟨l, hl, hd⟩
            have hsort₁ : TopoSorted deps s₁ := hlist l _ s₁ hfold hpre' hinv hsort
            have hn_not_res : n ∉ s₁.result := by
              rw [hres, List.mem_append]
              rintro (hx | hx)
              · exact h2 (contains_mem.mpr ((hinv.1 n).mpr hx))
              · exact (hdisj n hx) (List.mem_cons_self n s.visiting)
            intro m d hm hedge
            show d ∈ s₁.result ++ [n] ∧
              (s₁.result ++ [n]).indexOf d < (s₁.result ++ [n]).indexOf m
            rcases List.mem_append.mp hm with hm | hm
            · obtain ⟨hd_mem, hd_idx⟩ := hsort₁ m d hm hedge
              refine ⟨List.mem_append.mpr (Or.inl hd_mem), ?_⟩
              rw [List.indexOf_append_of_mem hd_mem, List.indexOf_append_of_mem hm]
              exact hd_idx
            · rw [List.mem_singleton] at hm
              subst hm
              obtain ⟨l', hl', hd⟩ := hedge
              rw [hl] at hl'
              injection hl' with hl'
              subst hl'
              have hd_settled : d ∈ s₁.visited ∨ d ∈ (m :: s.visiting) :=
                topoVisitList_visited deps fuel l _ s₁ hfold d hd
              have hd_res : d ∈ s₁.result := by
                rcases hd_settled with hin | hin
                · exact (hmem₁ d).mp hin
                · rcases List.mem_cons.mp hin with hin | hin
                  · rw [hin] at hd
                    exact absurd (Relation.TransGen.single ⟨l, hl, hd⟩) (hnc m)
                  · exact absurd
                      (Relation.TransGen.tail (hpre d hin) ⟨l, hl, hd⟩) (hnc d)
              refine ⟨List.mem_append.mpr (Or.inl hd_res), ?_⟩
              rw [List.indexOf_append_of_mem hd_res, indexOf_append_fresh _ _ hn_not_res]
              exact List.indexOf_lt_length.mpr hd_res

/-- A dependency edge is a reversed connection edge. -/
theorem depEdge_connStep (nodes : List CanvasNode) (connections : List Connection)
    (x y : String) (h : depEdge (buildDependencies nodes connections) x y) :
    connStep connections y x := by
  obtain ⟨l, hl, hy⟩ := h
  rw [buildDependencies_lookup] at hl
  by_cases hk : x ∈ nodes.map (·.id)
  · rw [if_pos hk] at hl
    injection hl with hl
    subst hl
    rw [List.mem_map] at hy
    obtain ⟨c, hc, he⟩ := hy
    refine ⟨c, List.mem_of_mem_filter hc, he, ?_⟩
    have := List.of_mem_filter hc
    simpa [beq_iff_eq] using this
  · rw [if_neg hk] at hl
    exact absurd hl (by simp)

/-- Connection-acyclicity rules out dependency cycles in the record. -/
theorem depEdge_acyclic (nodes : List CanvasNode) (connections : List Connection)
    (hac : AcyclicConnections connections) :
    ∀ x, ¬ Relation.TransGen (depEdge (buildDependencies nodes connections)) x x := by
  intro x hx
  apply hac x
  have hmono : ∀ a b, depEdge (buildDependencies nodes connections) a b →
      Function.swap (connStep connections) a b :=
    fun a b h => depEdge_connStep nodes connections a b h
  exact Relation.transGen_swap.mp (Relation.TransGen.mono hmono hx)

/-- From a state with an empty recursion stack, any successful fold preserves the
ordering invariant (the stack precondition is vacuous at the top level). -/
theorem topoVisitList_sorted_empty (deps : List (String × List String))
    (hnc : ∀ x, ¬ Relation.TransGen (depEdge deps) x x) (fuel : Nat) :
    ∀ (l : List String) (s s' : TopoState), s.visiting = [] →
      topoVisitList deps fuel s l = .ok s' →
      ((∀ x, x ∈ s.visited ↔ x ∈ s.result) ∧ s.result.Nodup) →
      TopoSorted deps s → TopoSorted deps s' := by
  intro l
  induction l with
  | nil =>
    intro s s' _ h _ hsort
    rw [topoVisitList_nil] at h
    injection h with h
    subst h
    exact hsort
  | cons d ds ih =>
    intro s s' hemp h hinv hsort
    rw [topoVisitList_cons] at h
    cases hv : topoVisit deps fuel s d with
    | crash => rw [hv] at h; exact absurd h (by simp)
    | nofuel => rw [hv] at h; exact absurd h (by simp)
    | ok s₁ =>
      rw [hv] at h
      obtain ⟨hvg, r, _, _, _, _, hcond⟩ := topoVisit_post deps fuel s d s₁ hv
      exact ih s₁ s' (hvg.trans hemp) h (hcond hinv)
        (topoVisit_sorted deps hnc fuel s d s₁ hv
          (fun v hv' => absurd (hemp ▸ hv') (List.not_mem_nil v)) hinv hsort)

/-- Claim C6 (confirmed): on an acyclic snapshot whose connection endpoints all
resolve to input nodes, `analyzeFlow` returns normally and, for every connection
`s → t`, `s` appears in `executionOrder` strictly before `t`. -/
theorem analyzeFlow_order_respects_connections (nodes : List CanvasNode)
    (connections : List Connection)
    (hres : ∀ c ∈ connections,
      c.sourceNodeId ∈ nodes.map (·.id) ∧ c.targetNodeId ∈ nodes.map (·.id))
    (hac : AcyclicConnections connections) :
    ∃ fa, analyzeFlow nodes connections = .ok fa ∧
      ∀ c ∈ connections,
        c.sourceNodeId ∈ fa.executionOrder ∧ c.targetNodeId ∈ fa.executionOrder ∧
        fa.executionOrder.indexOf c.sourceNodeId <
          fa.executionOrder.indexOf c.targetNodeId := by
  have h1 : ∀ c ∈ connections, c.sourceNodeId ∈ nodes.map (·.id) :=
    fun c hc => (hres c hc).1
  obtain ⟨s, cs, hs, hfa⟩ := analyzeFlow_run nodes connections h1
  obtain ⟨hvg, r, hres', hmem, hdisj, hsome, hcond⟩ :=
    topoVisitList_post_of (topoVisit_post (buildDependencies nodes connections) _)
      (nodes.map (·.id)) ⟨[], [], []⟩ s hs
  obtain ⟨hmemEq, hnd⟩ := hcond ⟨by simp, by simp⟩
  have hsorted : TopoSorted (buildDependencies nodes connections) s :=
    topoVisitList_sorted_empty (buildDependencies nodes connections)
      (depEdge_acyclic nodes connections hac) _ (nodes.map (·.id)) ⟨[], [], []⟩ s rfl hs
      ⟨by simp, by simp⟩ (fun m d hm => absurd hm (List.not_mem_nil m))
  have hcomplete : ∀ i ∈ nodes.map (·.id), i ∈ s.result := by
    intro i hi
    rcases topoVisitList_visited _ _ _ _ _ hs i hi with hin | hin
    · exact (hmemEq i).mp hin
    · exact absurd hin (List.not_mem_nil i)
  refine ⟨_, hfa, ?_⟩
  intro c hc
  have htmem : c.targetNodeId ∈ s.result := hcomplete _ (hres c hc).2
  have hedge : depEdge (buildDependencies nodes connections)
      c.targetNodeId c.sourceNodeId := by
    refine ⟨(connections.filter (fun c' => c'.targetNodeId == c.targetNodeId)).map
      (·.sourceNodeId), ?_, ?_⟩
    · rw [buildDependencies_lookup, if_pos (hres c hc).2]
    · rw [List.mem_map]
      exact ⟨c, List.mem_filter.mpr ⟨hc, by simp⟩, rfl⟩
  obtain ⟨hsm, hidx⟩ := hsorted _ _ htmem hedge
  exact ⟨hsm, htmem, hidx⟩

/-- Witness for C6 on the acyclic snapshot `A → B`: `A` is placed before `B`. -/
theorem analyzeFlow_order_respects_connections_witness :
    ∃ fa, analyzeFlow
        [⟨"A", "instruction", "A", [], []⟩, ⟨"B", "instruction", "B", [], []⟩]
        [⟨"c1", "A", "B", "p", "q"⟩] = .ok fa ∧
      ∀ c ∈ ([⟨"c1", "A", "B", "p", "q"⟩] : List Connection),
        c.sourceNodeId ∈ fa.executionOrder ∧ c.targetNodeId ∈ fa.executionOrder ∧
        fa.executionOrder.indexOf c.sourceNodeId <
          fa.executionOrder.indexOf c.targetNodeId :=
  analyzeFlow_order_respects_connections _ _ (by decide)
    (acyclicConnections_of_rank _ (fun s => if s = "A" then 0 else 1) (by decide))

/-! ## Claim C2, amended: agreement of the two traversals -/

/-- The `forEach` of `flowVisit` over a list of source ids. -/
def flowVisitList (nodes : List CanvasNode) (connections : List Connection) (fuel : Nat)
    (s : FlowBState) (l : List String) : Option FlowBState :=
  l.foldl (fun acc dep => Option.bind acc (fun st => flowVisit nodes connections fuel st dep))
    (some s)

/-- Unfolding of `flowVisit` at positive fuel, phrased via `flowVisitList` over the
source ids of the incoming connections. -/
theorem flowVisit_succ (nodes : List CanvasNode) (connections : List Connection)
    (fuel : Nat) (s : FlowBState) (nodeId : String) :
    flowVisit nodes connections (fuel + 1) s nodeId =
      if s.visiting.contains nodeId then some s
      else if s.visited.contains nodeId then some s
      else
        match lookupNode nodes nodeId with
        | some node =>
          if node.type != "account" then
            match flowVisitList nodes connections fuel
                { s with visiting := nodeId :: s.visiting }
                ((connections.filter (fun conn => conn.targetNodeId == nodeId)).map
                  (·.sourceNodeId)) with
            | some s₁ =>
              some { visiting := s₁.visiting.erase nodeId,
                     visited := nodeId :: s₁.visited,
                     executionOrder := s₁.executionOrder ++ [node.name] }
            | none => none
          else
            some { visiting := (nodeId :: s.visiting).erase nodeId,
                   visited := nodeId :: s.visited,
                   executionOrder := s.executionOrder }
        | none =>
          some { visiting := (nodeId :: s.visiting).erase nodeId,
                 visited := nodeId :: s.visited,
                 executionOrder := s.executionOrder } := by
  show flowVisit nodes connections (fuel + 1) s nodeId = _
  rw [flowVisit]
  rw [flowVisitList]
  rw [List.foldl_map]

/-- The projection from the ordering-pass state to the lowering-pass state:
identical `visiting`/`visited`, execution order restricted to behavioral nodes
and mapped to names. -/
def flowProj (nodes : List CanvasNode) (s : TopoState) : FlowBState :=
  ⟨s.visiting, s.visited, restrictBehavioral nodes s.result⟩

/-- The behavioral restriction distributes over append. -/
theorem restrictBehavioral_append (nodes : List CanvasNode) (r₁ r₂ : List String) :
    restrictBehavioral nodes (r₁ ++ r₂) =
      restrictBehavioral nodes r₁ ++ restrictBehavioral nodes r₂ :=
  List.filterMap_append r₁ r₂ _

/-- `none` short-circuits the lowering-pass fold. -/
theorem flowVisitList_absorb (nodes : List CanvasNode) (connections : List Connection)
    (fuel : Nat) (l : List String) :
    l.foldl (fun acc dep =>
      Option.bind acc (fun st => flowVisit nodes connections fuel st dep))
      (none : Option FlowBState) = none := by
  induction l with
  | nil => rfl
  | cons d ds ih => simpa using ih

/-- One step of the lowering-pass fold. -/
theorem flowVisitList_cons (nodes : List CanvasNode) (connections : List Connection)
    (fuel : Nat) (s : FlowBState) (d : String) (ds : List String) :
    flowVisitList nodes connections fuel s (d :: ds) =
      match flowVisit nodes connections fuel s d with
      | some s₁ => flowVisitList nodes connections fuel s₁ ds
      | none => none := by
  show (d :: ds).foldl _ _ = _
  rw [List.foldl_cons]
  cases h : flowVisit nodes connections fuel s d with
  | some s₁ => simp [h, flowVisitList]
  | none =>
    have hinit : ((some s).bind fun st => flowVisit nodes connections fuel st d) =
        (none : Option FlowBState) := by simp [h]
    rw [hinit]
    exact flowVisitList_absorb nodes connections fuel ds

/-- The behavioral restriction of a single resolved id. -/
theorem restrictBehavioral_singleton (nodes : List CanvasNode) (n : String) :
    restrictBehavioral nodes [n] =
      match lookupNode nodes n with
      | some node => if node.type = "account" then [] else [node.name]
      | none => [] := by
  cases h : lookupNode nodes n with
  | some node => by_cases ht : node.type = "account" <;> simp [restrictBehavioral, h, ht]
  | none => simp [restrictBehavioral, h]

/-- A string is a key of the dependency record exactly when some node carries it. -/
theorem lookupNode_isSome_of_mem (nodes : List CanvasNode) (n : String)
    (h : n ∈ nodes.map (·.id)) : ∃ node, lookupNode nodes n = some node := by
  rw [List.mem_map] at h
  obtain ⟨node, hn, he⟩ := h
  have hs : (nodes.find? (fun nd => nd.id == n)).isSome :=
    List.find?_isSome.mpr ⟨node, hn, by simp [beq_iff_eq, he]⟩
  cases hf : nodes.find? (fun nd => nd.id == n) with
  | none => rw [hf] at hs; exact absurd hs (by simp)
  | some nd => exact ⟨nd, hf⟩

/-- Bisimulation between the two traversals: on a record whose connection sources
resolve and with no connection into an account node, every successful
ordering-pass visit is matched, step for step and at the same fuel, by a
lowering-pass visit of the projected state. -/
theorem topoFlow_bisim (nodes : List CanvasNode) (connections : List Connection)
    (h3 : ∀ c ∈ connections, ∀ nd, lookupNode nodes c.targetNodeId = some nd →
      nd.type ≠ "account") :
    ∀ (fuel : Nat) (s : TopoState) (n : String) (s' : TopoState),
      topoVisit (buildDependencies nodes connections) fuel s n = .ok s' →
      flowVisit nodes connections fuel (flowProj nodes s) n = some (flowProj nodes s') := by
  intro fuel
  induction fuel with
  | zero => intro s n s' h; exact absurd h (by simp [topoVisit])
  | succ fuel ih =>
    have hlist : ∀ (l : List String) (s s' : TopoState),
        topoVisitList (buildDependencies nodes connections) fuel s l = .ok s' →
        flowVisitList nodes connections fuel (flowProj nodes s) l =
          some (flowProj nodes s') := by
      intro l
      induction l with
      | nil =>
        intro s s' h
        rw [topoVisitList_nil] at h
        injection h with h
        subst h
        rfl
      | cons d ds ihl =>
        intro s s' h
        rw [topoVisitList_cons] at h
        cases hv : topoVisit (buildDependencies nodes connections) fuel s d with
        | crash => rw [hv] at h; exact absurd h (by simp)
        | nofuel => rw [hv] at h; exact absurd h (by simp)
        | ok s₁ =>
          rw [hv] at h
          rw [flowVisitList_cons, ih s d s₁ hv]
          exact ihl s₁ s' h
    intro s n s' h
    rw [topoVisit_succ] at h
    rw [flowVisit_succ]
    by_cases hv1 : s.visiting.contains n
    · rw [if_pos hv1] at h
      injection h with h
      subst h
      rw [if_pos (show (flowProj nodes s).visiting.contains n from hv1)]
    · rw [if_neg hv1] at h
      rw [if_neg (show ¬(flowProj nodes s).visiting.contains n = true from hv1)]
      by_cases hv2 : s.visited.contains n
      · rw [if_pos hv2] at h
        injection h with h
        subst h
        rw [if_pos (show (flowProj nodes s).visited.contains n from hv2)]
      · rw [if_neg hv2] at h
        rw [if_neg (show ¬(flowProj nodes s).visited.contains n = true from hv2)]
        cases hl : recLookup (buildDependencies nodes connections) n with
        | none => exact absurd h (by simp [hl])
        | some l =>
          simp only [hl] at h
          have hmem : n ∈ nodes.map (·.id) := by
            rw [buildDependencies_lookup] at hl
            by_cases hn : n ∈ nodes.map (·.id)
            · exact hn
            · rw [if_neg hn] at hl; exact absurd hl (by simp)
          have hleq : l = (connections.filter
              (fun c => c.targetNodeId == n)).map (·.sourceNodeId) := by
            rw [buildDependencies_lookup, if_pos hmem] at hl
            injection hl with hl
            exact hl.symm
          obtain ⟨node, hnode⟩ := lookupNode_isSome_of_mem nodes n hmem
          simp only [hnode]
          by_cases hacc : node.type = "account"
          · have hfilter : connections.filter (fun c => c.targetNodeId == n) = [] := by
              rw [List.filter_eq_nil_iff]
              intro c hc hcn
              have : c.targetNodeId = n := by simpa [beq_iff_eq] using hcn
              exact h3 c hc node (this ▸ hnode) hacc
            have hl0 : l = [] := by rw [hleq, hfilter]; rfl
            subst hl0
            rw [topoVisitList_nil] at h
            injection h with h
            subst h
            rw [if_neg (by simp [bne_iff_ne, hacc])]
            show some _ = some (flowProj nodes
              ⟨(n :: s.visiting).erase n, n :: s.visited, s.result ++ [n]⟩)
            unfold flowProj
            rw [restrictBehavioral_append, restrictBehavioral_singleton, hnode]
            simp [hacc, flowProj]
          · rw [if_pos (by simp [bne_iff_ne]; exact hacc)]
            cases hfold : topoVisitList (buildDependencies nodes connections) fuel
                { s with visiting := n :: s.visiting } l with
            | crash => simp only [hfold] at h; exact absurd h (by simp)
            | nofuel => simp only [hfold] at h; exact absurd h (by simp)
            | ok s₁ =>
              simp only [hfold, JsOutcome.ok.injEq] at h
              subst h
              have hrun := hlist l { s with visiting := n :: s.visiting } s₁ hfold
              rw [← hleq]
              have hproj : flowProj nodes { s with visiting := n :: s.visiting } =
                  { flowProj nodes s with visiting := n :: (flowProj nodes s).visiting } := rfl
              rw [hproj] at hrun
              rw [hrun]
              show some _ = some (flowProj nodes
                ⟨s₁.visiting.erase n, n :: s₁.visited, s₁.result ++ [n]⟩)
              unfold flowProj
              rw [restrictBehavioral_append, restrictBehavioral_singleton, hnode]
              simp [hacc, flowProj]

/-- List-level export of the bisimulation. -/
theorem topoFlow_bisim_list (nodes : List CanvasNode) (connections : List Connection)
    (h3 : ∀ c ∈ connections, ∀ nd, lookupNode nodes c.targetNodeId = some nd →
      nd.type ≠ "account") (fuel : Nat) :
    ∀ (l : List String) (s s' : TopoState),
      topoVisitList (buildDependencies nodes connections) fuel s l = .ok s' →
      flowVisitList nodes connections fuel (flowProj nodes s) l =
        some (flowProj nodes s') := by
  intro l
  induction l with
  | nil =>
    intro s s' h
    rw [topoVisitList_nil] at h
    injection h with h
    subst h
    rfl
  | cons d ds ih =>
    intro s s' h
    rw [topoVisitList_cons] at h
    cases hv : topoVisit (buildDependencies nodes connections) fuel s d with
    | crash => rw [hv] at h; exact absurd h (by simp)
    | nofuel => rw [hv] at h; exact absurd h (by simp)
    | ok s₁ =>
      rw [hv] at h
      rw [flowVisitList_cons, topoFlow_bisim nodes connections h3 fuel s d s₁ hv]
      exact ih s₁ s' h

/-- Claim C2 as amended: for every acyclic graph snapshot whose connection source
ids resolve to input nodes and in which no connection targets an account node,
`analyzeFlow` and the lowering pass both return and their execution orders agree —
restricting `analyzeFlow`'s order to behavioral nodes and mapping ids to names
yields exactly `analyzeProgramFlow`'s `executionOrder`. -/
theorem analyzeFlow_generate_order_agree (nodes : List CanvasNode)
    (connections : List Connection)
    (_hac : AcyclicConnections connections)
    (h1 : ∀ c ∈ connections, c.sourceNodeId ∈ nodes.map (·.id))
    (h3 : ∀ c ∈ connections, ∀ nd, lookupNode nodes c.targetNodeId = some nd →
      nd.type ≠ "account") :
    ∃ fa pf, analyzeFlow nodes connections = .ok fa ∧
      analyzeProgramFlow nodes connections = some pf ∧
      restrictBehavioral nodes fa.executionOrder = pf.executionOrder := by
  obtain ⟨s, cs, hs, hfa⟩ := analyzeFlow_run nodes connections h1
  have hflow := topoFlow_bisim_list nodes connections h3
    ((nodes.map (·.id)).dedup.length + 1) (nodes.map (·.id)) ⟨[], [], []⟩ s hs
  have hfold : nodes.foldl (fun acc node => Option.bind acc (fun st =>
      flowVisit nodes connections ((nodes.map (·.id)).dedup.length + 1) st node.id))
      (some ⟨[], [], []⟩) = some (flowProj nodes s) := by
    have h2 := hflow
    rw [flowVisitList, List.foldl_map] at h2
    exact h2
  have hB : analyzeProgramFlow nodes connections =
      some ⟨(nodes.filter (fun node =>
          !(connections.any (fun conn => conn.targetNodeId == node.id)) &&
          node.type != "account")).map (·.name),
        (flowProj nodes s).executionOrder,
        connections.filterMap (fun conn =>
          match lookupNode nodes conn.sourceNodeId, lookupNode nodes conn.targetNodeId with
          | some sourceNode, some targetNode =>
            match sourceNode.outputs.find? (fun p => p.id == conn.sourcePortId),
                  targetNode.inputs.find? (fun p => p.id == conn.targetPortId) with
            | some sourcePort, some _ =>
              some ⟨sourceNode.name, targetNode.name, sourcePort.type, true⟩
            | _, _ => none
          | _, _ => none)⟩ := by
    unfold analyzeProgramFlow
    simp only [hfold]
  exact ⟨_, _, hfa, hB, rfl⟩

/-- Witness for the amended C2 on the snapshot with account node `X` feeding the
behavioral node `D`. -/
theorem analyzeFlow_generate_order_agree_witness :
    ∃ fa pf, analyzeFlow
        [⟨"X", "account", "X", [], []⟩, ⟨"D", "instruction", "D", [], []⟩]
        [⟨"c1", "X", "D", "p", "q"⟩] = .ok fa ∧
      analyzeProgramFlow
        [⟨"X", "account", "X", [], []⟩, ⟨"D", "instruction", "D", [], []⟩]
        [⟨"c1", "X", "D", "p", "q"⟩] = some pf ∧
      restrictBehavioral
        [⟨"X", "account", "X", [], []⟩, ⟨"D", "instruction", "D", [], []⟩]
        fa.executionOrder = pf.executionOrder :=
  analyzeFlow_generate_order_agree _ _
    (acyclicConnections_of_rank _ (fun s => if s = "X" then 0 else 1) (by decide))
    (by decide)
    (by
      intro c hc nd hnd
      simp only [List.mem_singleton] at hc
      subst hc
      have hfind : lookupNode
          [⟨"X", "account", "X", [], []⟩, ⟨"D", "instruction", "D", [], []⟩]
          (⟨"c1", "X", "D", "p", "q"⟩ : Connection).targetNodeId =
          some ⟨"D", "instruction", "D", [], []⟩ := rfl
      rw [hfind] at hnd
      injection hnd with hnd
      subst hnd
      decide)
